import Mathlib

/-!
Byte marshalling helpers of hello_world-ZKverifier.

A shallow embedding of `src/helpers/proof.js` (`hexToUint8Array`,
`flattenUint8Arrays`, `flattenFieldsAsArray`) and of `generateVK` and
`writeCalldataToFile` in `src/generate_vk-calldata.js` (byte extraction, the
two binary writes, the `try` block around calldata generation), followed by
the properties proved about them.

Conventions of the embedding:

* a JavaScript string is the list of its UTF-16 code units (`JSString`);
* a `Uint8Array` is the list of its elements (`ByteBuffer`), every store into
  one going through `toUint8`;
* a call that can throw returns `Except JSError _`;
* the run of `generateVK` passes the state of its three files explicitly,
  takes what lies outside the repository (garaga, the backend, the outcome of
  a file write) as `Prover` and `Collaborators`, and records the calls it
  makes to them, in program order, as a list of `Event`s.
-/

namespace ZKVerifier

deriving instance DecidableEq for Except

/-! ## JavaScript values -/

/-- A JavaScript string: the sequence of its UTF-16 code units. -/
abbrev JSString := List Nat

/-- The elements of a `Uint8Array`, in index order. -/
abbrev ByteBuffer := List Nat

/-- The exceptions the embedded code can raise. -/
inductive JSError where
  | typeError
  | rangeError
  | error (message : String)
  deriving DecidableEq, Repr

/-- The JavaScript values the program handles. An object is the association
list of its own data properties (the first binding of a name is the one read).
Numbers are the integer-valued ones and `NaN`. -/
inductive JSValue where
  | undefined
  | null
  | bool (b : Bool)
  | num (n : Int)
  | nan
  | str (s : JSString)
  | u8 (bytes : ByteBuffer)
  | arr (items : List JSValue)
  | obj (props : List (String × JSValue))

/-- UTF-16 code units of one Unicode scalar value. -/
def utf16 (c : Char) : List Nat :=
  if c.toNat < 0x10000 then [c.toNat]
  else [0xD800 + (c.toNat - 0x10000) / 0x400, 0xDC00 + (c.toNat - 0x10000) % 0x400]

/-- The JavaScript string written as the literal `s`. -/
def units (s : String) : JSString :=
  s.toList.flatMap utf16

/-! ## `parseInt(_, 16)` and the `Uint8Array` element store -/

/-- Code units that `parseInt` skips at the start of its input: the
ECMAScript `WhiteSpace` and `LineTerminator` code points. -/
def isStrWhiteSpaceChar (c : Nat) : Bool :=
  c == 0x09 || c == 0x0A || c == 0x0B || c == 0x0C || c == 0x0D || c == 0x20 ||
  c == 0xA0 || c == 0x1680 || (0x2000 ≤ c && c ≤ 0x200A) || c == 0x2028 ||
  c == 0x2029 || c == 0x202F || c == 0x205F || c == 0x3000 || c == 0xFEFF

/-- Value of a radix-16 digit, `none` for any other code unit. -/
def hexDigitValue (c : Nat) : Option Nat :=
  if 48 ≤ c ∧ c ≤ 57 then some (c - 48)
  else if 97 ≤ c ∧ c ≤ 102 then some (c - 87)
  else if 65 ≤ c ∧ c ≤ 70 then some (c - 55)
  else none

/-- Whether the code unit is one of `0-9`, `a-f`, `A-F`. -/
def isHexDigit (c : Nat) : Bool :=
  (hexDigitValue c).isSome

/-- Value of a digit, 0 for a code unit that is not a digit. -/
def hexVal (c : Nat) : Nat :=
  (hexDigitValue c).getD 0

/-- The number a string of radix-16 digits denotes, most significant first. -/
def digitsValue (ds : List Nat) : Nat :=
  ds.foldl (fun acc c => acc * 16 + hexVal c) 0

/-- ECMAScript `parseInt(input, 16)`; `none` is `NaN`. Leading white space is
skipped, one sign is read, one `0x`/`0X` is skipped, and the longest run of
radix-16 digits that follows is the value. (The result is exact for the inputs
of at most two code units this program passes.) -/
def parseInt16 (input : JSString) : Option Int :=
  let s := input.dropWhile isStrWhiteSpaceChar
  let sign : Int := if s.head? = some 45 then -1 else 1
  let s := if s.head? = some 43 ∨ s.head? = some 45 then s.drop 1 else s
  let s := if s.take 2 = [48, 120] ∨ s.take 2 = [48, 88] then s.drop 2 else s
  let z := s.takeWhile isHexDigit
  if z = [] then none else some (sign * (digitsValue z : Int))

/-- The conversion applied when a number is stored into a `Uint8Array`:
`NaN` becomes 0, an integer is reduced modulo 256. -/
def toUint8 (v : Option Int) : Nat :=
  match v with
  | none => 0
  | some n => (n % 256).toNat

/-! ## `src/helpers/proof.js` -/

/-- The call `s.startsWith(p)`. -/
def startsWith (s p : JSString) : Bool :=
  s.take p.length == p

/-- The call `s.slice(a, b)` for non-negative `a` and `b`. -/
def slice (s : JSString) (a b : Nat) : JSString :=
  (s.take b).drop a

/-- The body of `hexToUint8Array` on a string argument: lines 20-37. -/
def hexToUint8ArrayStr (hex : JSString) : ByteBuffer :=
  let hex := if startsWith hex (units "0x") || startsWith hex (units "0X") then slice hex 2 hex.length else hex
  let hex := if hex.length % 2 ≠ 0 then units "0" ++ hex else hex
  let len := hex.length / 2
  let u8 : ByteBuffer := List.replicate len 0
  (List.range len).foldl
    (fun u8 i => u8.set i (toUint8 (parseInt16 (slice hex (i * 2) (i * 2 + 2))))) u8

/-- Embedding of `hexToUint8Array(hex)`. A value that is not a string has no
callable `startsWith`, so line 21 throws a `TypeError`. -/
def hexToUint8Array (hex : JSValue) : Except JSError ByteBuffer :=
  match hex with
  | .str s => .ok (hexToUint8ArrayStr s)
  | _ => .error .typeError

/-- The call `result.set(arr, offset)` on a `Uint8Array`: a `RangeError` when the source
does not fit at the offset, otherwise the elements at `offset ..` are
overwritten by `arr`. -/
def typedArraySet (result arr : ByteBuffer) (offset : Nat) : Except JSError ByteBuffer :=
  if offset + arr.length > result.length then .error .rangeError
  else .ok (result.take offset ++ arr ++ result.drop (offset + arr.length))

/-- One iteration of the loop of `flattenUint8Arrays` (lines 12-13) on the
state `(result, offset)`. -/
def flattenStep (st : ByteBuffer × Nat) (arr : ByteBuffer) : Except JSError (ByteBuffer × Nat) := do
  let result ← typedArraySet st.1 arr st.2
  pure (result, st.2 + arr.length)

/-- Embedding of `flattenUint8Arrays(arrays)` on a sequence of `Uint8Array`s. -/
def flattenUint8Arrays (arrays : List ByteBuffer) : Except JSError ByteBuffer := do
  let totalLength := arrays.foldl (fun acc val => acc + val.length) 0
  let result : ByteBuffer := List.replicate totalLength 0
  let offset := 0
  let st ← arrays.foldlM flattenStep (result, offset)
  pure st.1

/-- Embedding of `flattenFieldsAsArray(fields)`. On an array, `map` calls
`hexToUint8Array` on the elements in index order and the first exception
ends the call. A `Uint8Array` has a `map` of its own, which calls
`hexToUint8Array` on numbers and so throws unless the array is empty; any other
value has no callable `map`. -/
def flattenFieldsAsArray (fields : JSValue) : Except JSError ByteBuffer :=
  match fields with
  | .arr items => do
      let flattenedPublicInputs ← items.mapM hexToUint8Array
      flattenUint8Arrays flattenedPublicInputs
  | .u8 [] => flattenUint8Arrays []
  | _ => .error .typeError

/-! ## Byte extraction in `generateVK` (`src/generate_vk-calldata.js`) -/

/-- The test `v instanceof Uint8Array`. -/
def instanceofUint8Array (v : JSValue) : Bool :=
  match v with
  | .u8 _ => true
  | _ => false

/-- ECMAScript `ToBoolean`. -/
def truthy (v : JSValue) : Bool :=
  match v with
  | .undefined => false
  | .null => false
  | .bool b => b
  | .num n => n != 0
  | .nan => false
  | .str s => !s.isEmpty
  | .u8 _ => true
  | .arr _ => true
  | .obj _ => true

/-- Property read `v.name` for the names this program reads (`data`, `proof`,
`publicInputs`, `witness`), none of which is a built-in property: a `TypeError` on
`undefined` and `null`, the own property of an object, `undefined` otherwise. -/
def getProp (v : JSValue) (name : String) : Except JSError JSValue :=
  match v with
  | .undefined => .error .typeError
  | .null => .error .typeError
  | .obj props => .ok ((props.lookup name).getD .undefined)
  | _ => .ok .undefined

/-- The expression of lines 43 and 44,
`v instanceof Uint8Array ? v : (v && v.field instanceof Uint8Array ? v.field : null)`. -/
def extractBinary (v : JSValue) (field : String) : Except JSError JSValue :=
  if instanceofUint8Array v then pure v
  else do
    let cond ←
      if truthy v then do
        let inner ← getProp v field
        pure (instanceofUint8Array inner)
      else pure false
    if cond then getProp v field else pure .null

/-- Lines 43-48 of `generateVK`: `vkBytes` and `proofBytes` are computed from
the results of the backend, and the run throws when either is falsy. -/
def generateVK_extract (vk proof : JSValue) : Except JSError (JSValue × JSValue) := do
  let vkBytes ← extractBinary vk "data"
  let proofBytes ← extractBinary proof "proof"
  if !truthy vkBytes || !truthy proofBytes then
    throw (.error "Could not extract binary data from VK or Proof objects.")
  pure (vkBytes, proofBytes)

/-! ## Calldata generation and persistence in `generateVK` -/

/-- The constant `HonkFlavor` of lines 12-15. -/
def HonkFlavor : List (String × Int) :=
  [("KECCAK", 0), ("STARKNET", 1)]

/-- The options object passed to `backend.generateProof` on line 33. -/
def generateProofOptions : JSValue :=
  .obj [("starknet", .bool true)]

/-- The options object passed to `backend.getVerificationKey` on line 36. -/
def getVerificationKeyOptions : JSValue :=
  .obj [("starknet", .bool true)]

/-- The three files the program writes: `target/vk`, `target/proof` and
`target/calldata.json`. -/
inductive TargetFile where
  | vk
  | proof
  | calldata
  deriving DecidableEq, Repr

/-- What a file holds: the bytes of a `Uint8Array`, or a text, kept as the
string that was handed to `fs.writeFile` with the `utf-8` encoding. -/
inductive FileContent where
  | bytes (b : ByteBuffer)
  | text (s : JSString)
  deriving DecidableEq, Repr

/-- The state of the three files; `none` is a file that does not exist. -/
structure Files where
  vk : Option FileContent
  proof : Option FileContent
  calldata : Option FileContent
  deriving DecidableEq, Repr

/-- The content of one of the three files. -/
def Files.read (files : Files) (path : TargetFile) : Option FileContent :=
  match path with
  | .vk => files.vk
  | .proof => files.proof
  | .calldata => files.calldata

/-- The file state after the content of one file is replaced. -/
def Files.replace (files : Files) (path : TargetFile) (content : FileContent) : Files :=
  match path with
  | .vk => { files with vk := some content }
  | .proof => { files with proof := some content }
  | .calldata => { files with calldata := some content }

/-- The collaborators of `generateVK` from line 42 on, outside the repository:
the second `init()` of garaga (line 61), `getHonkCallData`, the string
conversion of the calldata elements it returns, the I/O error (if any) with
which a write to each file fails, and `backend.destroy()`. -/
structure Collaborators (Elem : Type) where
  garagaInit : Except JSError Unit
  getHonkCallData : JSValue → ByteBuffer → JSValue → Int → Except JSError (List Elem)
  elemToString : Elem → JSString
  writeFailure : TargetFile → Option JSError
  destroy : Except JSError Unit

/-- Modelled from the spec: `fs.writeFile(path, data)` of Node, which is not
part of the repository. Following section 5 of the specification a write is a
single whole-file write that is either fully done, replacing any prior content,
or not attempted: a failing write leaves the file as it was. Data that is
neither a `Uint8Array` nor a string is refused with a `TypeError`. -/
def writeFile (writeFailure : TargetFile → Option JSError) (files : Files) (path : TargetFile)
    (data : JSValue) : Files × Except JSError Unit :=
  match data with
  | .u8 b =>
    match writeFailure path with
    | some e => (files, .error e)
    | none => (files.replace path (.bytes b), .ok ())
  | .str s =>
    match writeFailure path with
    | some e => (files, .error e)
    | none => (files.replace path (.text s), .ok ())
  | _ => (files, .error .typeError)

/-- A lower-case radix-16 digit. -/
def hexChar (n : Nat) : Nat :=
  if n < 10 then 48 + n else 87 + n

/-- ECMAScript `UnicodeEscape`: a backslash, `u` and four lower-case hex digits. -/
def unicodeEscape (c : Nat) : JSString :=
  [92, 117, hexChar (c / 4096 % 16), hexChar (c / 256 % 16), hexChar (c / 16 % 16),
    hexChar (c % 16)]

/-- A leading (high) surrogate code unit. -/
def isLeadingSurrogate (c : Nat) : Bool :=
  0xD800 ≤ c && c ≤ 0xDBFF

/-- A trailing (low) surrogate code unit. -/
def isTrailingSurrogate (c : Nat) : Bool :=
  0xDC00 ≤ c && c ≤ 0xDFFF

/-- The rendering of one code point that is a single code unit in ECMAScript
`QuoteJSONString`: the short escapes of its table, `UnicodeEscape` for the
other code units below 0x20 and for a surrogate (here one that is not part of
a pair), the code unit itself otherwise. -/
def quoteJSONCodeUnit (c : Nat) : JSString :=
  if c = 8 then [92, 98]
  else if c = 9 then [92, 116]
  else if c = 10 then [92, 110]
  else if c = 12 then [92, 102]
  else if c = 13 then [92, 114]
  else if c = 34 then [92, 34]
  else if c = 92 then [92, 92]
  else if c < 32 ∨ isLeadingSurrogate c ∨ isTrailingSurrogate c then unicodeEscape c
  else [c]

/-- The characters ECMAScript `QuoteJSONString` puts between the quotes, code
point by code point: a leading surrogate followed by a trailing one is one
code point and is kept as it is, any other code unit is a code point of its
own. -/
def quoteJSONBody : JSString → JSString
  | [] => []
  | [c] => quoteJSONCodeUnit c
  | c :: d :: rest =>
    if isLeadingSurrogate c ∧ isTrailingSurrogate d then c :: d :: quoteJSONBody rest
    else quoteJSONCodeUnit c ++ quoteJSONBody (d :: rest)

/-- ECMAScript `QuoteJSONString`. -/
def quoteJSONString (s : JSString) : JSString :=
  [34] ++ quoteJSONBody s ++ [34]

/-- The elements of a non-empty array as `JSON.stringify(_, null, 2)` lays
them out: each on a line of its own behind two spaces, a comma after every
element but the last. -/
def stringifyElements : List JSString → JSString
  | [] => []
  | [s] => units "\n  " ++ quoteJSONString s
  | s :: t :: rest => units "\n  " ++ quoteJSONString s ++ units "," ++ stringifyElements (t :: rest)

/-- The call `JSON.stringify(strings, null, 2)` on an array of strings. -/
def jsonStringify (strings : List JSString) : JSString :=
  match strings with
  | [] => units "[]"
  | _ => units "[" ++ stringifyElements strings ++ units "\n]"

/-- Embedding of `writeCalldataToFile(calldata, filePath)`, lines 88-92. -/
def writeCalldataToFile {Elem : Type} (c : Collaborators Elem) (files : Files)
    (calldata : List Elem) (filePath : TargetFile) : Files × Except JSError Unit :=
  let calldataAsStrings := calldata.map c.elemToString
  writeFile c.writeFailure files filePath (.str (jsonStringify calldataAsStrings))

/-- The four arguments of the call of `getHonkCallData` on lines 62-67, in
evaluation order: `proof.proof`, `flattenFieldsAsArray(proof.publicInputs)`,
`vk` and the literal 1. -/
def getHonkCallDataArgs (vk proof : JSValue) :
    Except JSError (JSValue × ByteBuffer × JSValue × Int) := do
  let proofField ← getProp proof "proof"
  let publicInputs ← getProp proof "publicInputs"
  let flattened ← flattenFieldsAsArray publicInputs
  pure (proofField, flattened, vk, 1)

/-- The calls the run makes to what lies outside the repository, and the
error line of its `catch` block: the events of a run, recorded in program
order at the moment each call is made. -/
inductive Event where
  | init
  | execute (inputs : JSValue)
  | generateProof (witness options : JSValue)
  | getVerificationKey (options : JSValue)
  | writeFile (path : TargetFile) (data : JSValue)
  | getHonkCallData (proof : JSValue) (publicInputs : ByteBuffer) (vk : JSValue) (flavor : Int)
  | logError (e : JSError)
  | destroy

/-- The `try` block of `generateVK`, lines 60-72, with its events: `init()`,
then the call of `getHonkCallData` once its arguments are evaluated, then the
write of `writeCalldataToFile`. The result is the file state and whether the
block threw, paired with the events. -/
def generateVK_try_traced {Elem : Type} (c : Collaborators Elem) (vk proof : JSValue)
    (files : Files) : (Files × Except JSError Unit) × List Event :=
  match c.garagaInit with
  | .error e => ((files, .error e), [.init])
  | .ok _ =>
    match getHonkCallDataArgs vk proof with
    | .error e => ((files, .error e), [.init])
    | .ok (proofField, flattened, vkArg, flavor) =>
      match c.getHonkCallData proofField flattened vkArg flavor with
      | .error e =>
        ((files, .error e), [.init, .getHonkCallData proofField flattened vkArg flavor])
      | .ok callData =>
        (writeCalldataToFile c files callData .calldata,
          [.init, .getHonkCallData proofField flattened vkArg flavor,
            .writeFile .calldata (.str (jsonStringify (callData.map c.elemToString)))])

/-- The `try` block of `generateVK`, lines 60-72: the final file state and
whether the block threw. -/
def generateVK_try {Elem : Type} (c : Collaborators Elem) (vk proof : JSValue) (files : Files) :
    Files × Except JSError Unit :=
  (generateVK_try_traced c vk proof files).1

/-- Embedding of `generateVK` from line 42 on, `vk` and `proof` being the
results the backend returned on lines 33 and 36, with its events: extraction,
the write of `target/vk`, the write of `target/proof`, the `try` block, the
error line of the `catch` block when the `try` block threw, and
`backend.destroy()`. An exception of the `try` block is caught (and only
logged). The result is the final file state and whether the run threw, paired
with the events. -/
def generateVK_traced {Elem : Type} (c : Collaborators Elem) (vk proof : JSValue)
    (files : Files) : (Files × Except JSError Unit) × List Event :=
  match generateVK_extract vk proof with
  | .error e => ((files, .error e), [])
  | .ok (vkBytes, proofBytes) =>
    match writeFile c.writeFailure files .vk vkBytes with
    | (files, .error e) => ((files, .error e), [.writeFile .vk vkBytes])
    | (files, .ok _) =>
      match writeFile c.writeFailure files .proof proofBytes with
      | (files, .error e) =>
        ((files, .error e), [.writeFile .vk vkBytes, .writeFile .proof proofBytes])
      | (files, .ok _) =>
        let afterTry := generateVK_try_traced c vk proof files
        let caught : List Event :=
          match afterTry.1.2 with
          | .error e => [.logError e]
          | .ok _ => []
        ((afterTry.1.1, c.destroy),
          [.writeFile .vk vkBytes, .writeFile .proof proofBytes] ++ afterTry.2 ++ caught
            ++ [.destroy])

/-- Embedding of `generateVK` from line 42 on: the final file state and
whether the run threw. -/
def generateVK {Elem : Type} (c : Collaborators Elem) (vk proof : JSValue) (files : Files) :
    Files × Except JSError Unit :=
  (generateVK_traced c vk proof files).1

/-- The collaborators of lines 18-36, outside the repository: the first
`init()` of garaga (line 20), `noir.execute`, `backend.generateProof` and
`backend.getVerificationKey`. -/
structure Prover where
  garagaInit : Except JSError Unit
  execute : JSValue → Except JSError JSValue
  generateProof : JSValue → JSValue → Except JSError JSValue
  getVerificationKey : JSValue → Except JSError JSValue

/-- The circuit inputs of line 30. -/
def circuitInputs : JSValue :=
  .obj [("x", .num 15), ("y", .num 14)]

/-- Embedding of the whole of `generateVK`, lines 17-80, with its events:
`init()`, `noir.execute` and the reading of `witness` from its result,
`backend.generateProof` and `backend.getVerificationKey` with the option
objects of lines 33 and 36, then the run from line 42 on. (The two
constructors of lines 26-27 are taken to succeed.) -/
def generateVK_run {Elem : Type} (p : Prover) (c : Collaborators Elem) (files : Files) :
    (Files × Except JSError Unit) × List Event :=
  match p.garagaInit with
  | .error e => ((files, .error e), [.init])
  | .ok _ =>
    match p.execute circuitInputs with
    | .error e => ((files, .error e), [.init, .execute circuitInputs])
    | .ok executed =>
      match getProp executed "witness" with
      | .error e => ((files, .error e), [.init, .execute circuitInputs])
      | .ok witness =>
        match p.generateProof witness generateProofOptions with
        | .error e =>
          ((files, .error e),
            [.init, .execute circuitInputs, .generateProof witness generateProofOptions])
        | .ok proof =>
          match p.getVerificationKey getVerificationKeyOptions with
          | .error e =>
            ((files, .error e),
              [.init, .execute circuitInputs, .generateProof witness generateProofOptions,
                .getVerificationKey getVerificationKeyOptions])
          | .ok vk =>
            let rest := generateVK_traced c vk proof files
            (rest.1,
              [.init, .execute circuitInputs, .generateProof witness generateProofOptions,
                .getVerificationKey getVerificationKeyOptions] ++ rest.2)

/-- The file state after an event: a write event is that write, any other
event leaves the three files as they are. -/
def applyEvent (writeFailure : TargetFile → Option JSError) (files : Files) (ev : Event) :
    Files :=
  match ev with
  | .writeFile path data => (writeFile writeFailure files path data).1
  | _ => files

/-! ## Vocabulary of the properties -/

/-- The string left once an optional leading `0x`/`0X` is removed. -/
def stripped (h : JSString) : JSString :=
  if h.take 2 = [48, 120] ∨ h.take 2 = [48, 88] then h.drop 2 else h

/-- The digit string left-padded with one `0` when its length is odd. -/
def padded (d : JSString) : JSString :=
  if d.length % 2 = 1 then 48 :: d else d

/-- Every code unit is one of `0-9`, `a-f`, `A-F`. -/
def IsHexString (d : JSString) : Prop :=
  ∀ c ∈ d, isHexDigit c = true

instance (d : JSString) : Decidable (IsHexString d) :=
  inferInstanceAs (Decidable (∀ c ∈ d, isHexDigit c = true))

/-- The number a byte sequence denotes, most significant byte first. -/
def bytesValue (bs : ByteBuffer) : Nat :=
  bs.foldl (fun acc b => acc * 256 + b) 0

/-- The artifact matches one of the two shapes: it is a byte buffer itself,
or it is an object whose property `field` is a byte buffer. -/
def MatchesShape (v : JSValue) (field : String) : Prop :=
  (∃ b, v = .u8 b) ∨ (∃ props b, v = .obj props ∧ props.lookup field = some (.u8 b))

/-- One value per consecutive pair of code units, left to right; a last
unpaired code unit is not used. -/
def pairsMap (g : JSString → Nat) : JSString → List Nat
  | a :: b :: rest => g [a, b] :: pairsMap g rest
  | _ => []

/-- The byte `hexToUint8Array` stores for one slice of the string. -/
def byteOfSlice (p : JSString) : Nat :=
  toUint8 (parseInt16 p)

/-- The two flavors the program names. -/
inductive Flavor where
  | keccak
  | starknet
  deriving DecidableEq, Repr

/-- The name of the flavor's constant in `HonkFlavor` (lines 13-14). -/
def Flavor.constantName (flavor : Flavor) : String :=
  match flavor with
  | .keccak => "KECCAK"
  | .starknet => "STARKNET"

/-- The code garaga is given for the flavor: the value of its constant in
`HonkFlavor`. -/
def Flavor.code (flavor : Flavor) : Option Int :=
  HonkFlavor.lookup flavor.constantName

/-- The name of the boolean option by which the backend (bb.js, outside the
repository) is told to use the flavor, as on lines 33 and 36. -/
def Flavor.backendOption (flavor : Flavor) : String :=
  match flavor with
  | .keccak => "keccak"
  | .starknet => "starknet"

/-- The options object selects the flavor: its option of that flavor is
`true`. -/
def SelectsFlavor (options : JSValue) (flavor : Flavor) : Prop :=
  getProp options flavor.backendOption = .ok (.bool true)

/-- A radix-16 digit in the chosen case. -/
def hexDigitChar (upper : Bool) (n : Nat) : Nat :=
  if n < 10 then 48 + n else if upper then 55 + n else 87 + n

/-- The rendering of a byte sequence with two hex digits per byte,
most-significant nibble first, in lower or in upper case. -/
def toHex (upper : Bool) (bs : ByteBuffer) : JSString :=
  bs.flatMap (fun b => [hexDigitChar upper (b / 16), hexDigitChar upper (b % 16)])

/-- Every element is a byte. -/
def IsBytes (bs : ByteBuffer) : Prop :=
  ∀ b ∈ bs, b < 256

instance (bs : ByteBuffer) : Decidable (IsBytes bs) :=
  inferInstanceAs (Decidable (∀ b ∈ bs, b < 256))

/-- JSON white space: space, tab, line feed, carriage return. -/
def isJSONWhiteSpace (c : Nat) : Bool :=
  c == 32 || c == 9 || c == 10 || c == 13

/-- The JSON text without its leading white space. -/
def skipJSONWhiteSpace (text : JSString) : JSString :=
  text.dropWhile isJSONWhiteSpace

/-- The code unit a `\uXXXX` escape denotes, `none` when one of the four
characters is not a hex digit. -/
def parseHex4 (a b c d : Nat) : Option Nat :=
  match hexDigitValue a, hexDigitValue b, hexDigitValue c, hexDigitValue d with
  | some x, some y, some z, some w => some (((x * 16 + y) * 16 + z) * 16 + w)
  | _, _, _, _ => none

/-- The character a one-letter JSON escape denotes. -/
def parseSimpleEscape (e : Nat) : Option Nat :=
  if e = 34 then some 34
  else if e = 92 then some 92
  else if e = 47 then some 47
  else if e = 98 then some 8
  else if e = 102 then some 12
  else if e = 110 then some 10
  else if e = 114 then some 13
  else if e = 116 then some 9
  else none

/-- A JSON string read from just behind its opening quote: the string it
denotes and the text left behind the closing quote. Control characters and
malformed escapes are rejected. -/
def parseJSONString : JSString → Option (JSString × JSString)
  | [] => none
  | c :: t =>
    if c = 34 then some ([], t)
    else if c = 92 then
      match t with
      | [] => none
      | e :: rest =>
        if e = 117 then
          match rest with
          | a :: b :: x :: y :: rest2 =>
            match parseHex4 a b x y, parseJSONString rest2 with
            | some v, some (s, left) => some (v :: s, left)
            | _, _ => none
          | _ => none
        else
          match parseSimpleEscape e, parseJSONString rest with
          | some v, some (s, left) => some (v :: s, left)
          | _, _ => none
    else if c < 32 then none
    else
      match parseJSONString t with
      | some (s, left) => some (c :: s, left)
      | none => none

/-- The elements of a JSON array of strings read from the first element on,
up to the closing bracket, behind which only white space may follow. Every
element read uses one unit of `fuel`. -/
def parseJSONElements : Nat → JSString → Option (List JSString)
  | 0, _ => none
  | fuel + 1, text =>
    match text with
    | 34 :: body =>
      match parseJSONString body with
      | none => none
      | some (s, left) =>
        match skipJSONWhiteSpace left with
        | 44 :: left2 =>
          match parseJSONElements fuel (skipJSONWhiteSpace left2) with
          | some more => some (s :: more)
          | none => none
        | 93 :: left2 => if skipJSONWhiteSpace left2 = [] then some [s] else none
        | _ => none
    | _ => none

/-- The reader of the calldata artifact: ECMAScript `JSON.parse` on the texts
that denote an array of strings, `none` for a text that is not one (this
reader is not part of the repository; JSON values of other kinds are outside
what `writeCalldataToFile` writes and are rejected here). The fuel is the
length of the text, which exceeds the number of elements it can hold. -/
def jsonParseStringArray (text : JSString) : Option (List JSString) :=
  match skipJSONWhiteSpace text with
  | 91 :: rest =>
    match skipJSONWhiteSpace rest with
    | 93 :: left => if skipJSONWhiteSpace left = [] then some [] else none
    | first => parseJSONElements text.length first
  | _ => none

/-! ## Lemmas on `hexToUint8Array` -/

theorem foldl_set_range_aux (f : Nat → Nat) (init : List Nat) (k : Nat) (hk : k ≤ init.length) :
    (List.range k).foldl (fun u8 i => u8.set i (f i)) init
      = (List.range k).map f ++ init.drop k := by
  induction k with
  | zero => simp
  | succ k ih =>
    have hk1 : k < init.length := hk
    rw [List.range_succ, List.foldl_append, ih (Nat.le_of_lt hk1)]
    simp only [List.foldl_cons, List.foldl_nil, List.map_append, List.map_cons, List.map_nil]
    have hlen : ((List.range k).map f).length = k := by simp
    rw [List.set_append_right _ _ (by simp)]
    simp only [hlen, Nat.sub_self]
    rw [List.drop_eq_getElem_cons hk1]
    simp only [List.set_cons_zero, List.append_assoc, List.singleton_append]

theorem foldl_set_range (f : Nat → Nat) (n : Nat) :
    (List.range n).foldl (fun u8 i => u8.set i (f i)) (List.replicate n 0)
      = (List.range n).map f := by
  rw [foldl_set_range_aux f _ n (by simp)]
  simp

theorem units_0x : units "0x" = [48, 120] := by decide
theorem units_0X : units "0X" = [48, 88] := by decide
theorem units_0 : units "0" = [48] := by decide

/-- The loop of `hexToUint8Array` computes one byte per pair of the stripped
and padded string. -/
theorem hexToUint8ArrayStr_eq (h : JSString) :
    hexToUint8ArrayStr h
      = (List.range ((padded (stripped h)).length / 2)).map
          (fun i => toUint8 (parseInt16 (slice (padded (stripped h)) (i * 2) (i * 2 + 2)))) := by
  have hs : (if startsWith h (units "0x") || startsWith h (units "0X") then slice h 2 h.length else h)
      = stripped h := by
    simp only [startsWith, units_0x, units_0X, stripped, slice, Bool.or_eq_true, beq_iff_eq,
      List.length_cons, List.length_nil, List.take_length]
  have hp : ∀ d : JSString, (if d.length % 2 ≠ 0 then units "0" ++ d else d) = padded d := by
    intro d
    simp only [units_0, padded]
    by_cases h1 : d.length % 2 = 1
    · simp [h1]
    · have : d.length % 2 = 0 := by omega
      simp [this]
  unfold hexToUint8ArrayStr
  simp only [hs, hp]
  exact foldl_set_range _ _

theorem range_map_slice (g : JSString → Nat) :
    ∀ d : JSString,
      (List.range (d.length / 2)).map (fun i => g (slice d (i * 2) (i * 2 + 2))) = pairsMap g d
  | [] => by simp [pairsMap]
  | [_] => by simp [pairsMap]
  | a :: b :: rest => by
    have ih := range_map_slice g rest
    have hlen : (a :: b :: rest).length / 2 = rest.length / 2 + 1 := by
      simp only [List.length_cons]; omega
    rw [hlen, List.range_succ_eq_map, List.map_cons, List.map_map, pairsMap, ← ih]
    congr 1
    apply List.map_congr_left
    intro i _
    have h1 : (i + 1) * 2 + 2 = (i * 2 + 2) + 1 + 1 := by ring
    have h2 : (i + 1) * 2 = i * 2 + 1 + 1 := by ring
    simp only [Function.comp, slice, Nat.succ_eq_add_one, h1, h2, List.take_succ_cons,
      List.drop_succ_cons]

theorem hexToUint8ArrayStr_pairs (h : JSString) :
    hexToUint8ArrayStr h = pairsMap byteOfSlice (padded (stripped h)) := by
  rw [hexToUint8ArrayStr_eq]
  exact range_map_slice byteOfSlice _

theorem pairsMap_length (g : JSString → Nat) : ∀ d : JSString, (pairsMap g d).length = d.length / 2
  | [] => by simp [pairsMap]
  | [_] => by simp [pairsMap]
  | a :: b :: rest => by
    have ih := pairsMap_length g rest
    simp only [pairsMap, List.length_cons, ih]; omega

theorem pairsMap_getElem? (g : JSString → Nat) :
    ∀ (d : JSString) (i : Nat) (a b : Nat), d[2 * i]? = some a → d[2 * i + 1]? = some b →
      (pairsMap g d)[i]? = some (g [a, b])
  | [], i, a, b, ha, _ => by simp at ha
  | [_], i, a, b, _, hb => by simp at hb
  | x :: y :: rest, 0, a, b, ha, hb => by
    simp only [Nat.mul_zero, List.getElem?_cons_zero, Option.some.injEq, Nat.zero_add,
      List.getElem?_cons_succ] at ha hb
    simp [pairsMap, ha, hb]
  | x :: y :: rest, i + 1, a, b, ha, hb => by
    have h1 : 2 * (i + 1) = 2 * i + 1 + 1 := by ring
    have h2 : 2 * (i + 1) + 1 = 2 * i + 1 + 1 + 1 := by ring
    rw [h1, List.getElem?_cons_succ, List.getElem?_cons_succ] at ha
    rw [h2, List.getElem?_cons_succ, List.getElem?_cons_succ] at hb
    simp only [pairsMap, List.getElem?_cons_succ]
    exact pairsMap_getElem? g rest i a b ha hb

theorem padded_length_even (d : JSString) : (padded d).length % 2 = 0 := by
  unfold padded
  split
  · simp only [List.length_cons]; omega
  · omega

theorem padded_length_half (d : JSString) : (padded d).length / 2 = (d.length + 1) / 2 := by
  unfold padded
  split
  · simp only [List.length_cons]
  · omega

theorem hexToUint8ArrayStr_length (h : JSString) :
    (hexToUint8ArrayStr h).length = ((stripped h).length + 1) / 2 := by
  rw [hexToUint8ArrayStr_pairs, pairsMap_length, padded_length_half]

theorem isHexDigit_iff (c : Nat) :
    isHexDigit c = true ↔ (48 ≤ c ∧ c ≤ 57) ∨ (97 ≤ c ∧ c ≤ 102) ∨ (65 ≤ c ∧ c ≤ 70) := by
  unfold isHexDigit hexDigitValue
  split_ifs <;> simp <;> omega

theorem hexVal_lt (c : Nat) : hexVal c < 16 := by
  unfold hexVal hexDigitValue
  split_ifs <;> simp <;> omega

theorem not_ws_of_hex (c : Nat) (hc : isHexDigit c = true) : isStrWhiteSpaceChar c = false := by
  rw [isHexDigit_iff] at hc
  simp only [isStrWhiteSpaceChar, Bool.or_eq_false_iff, Bool.and_eq_false_imp, beq_eq_false_iff_ne,
    decide_eq_true_eq, decide_eq_false_iff_not]
  omega

theorem byteOfSlice_hex_hex (a b : Nat) (ha : isHexDigit a = true) (hb : isHexDigit b = true) :
    byteOfSlice [a, b] = 16 * hexVal a + hexVal b := by
  have hws := not_ws_of_hex a ha
  have ha2 := (isHexDigit_iff a).1 ha
  have hb2 := (isHexDigit_iff b).1 hb
  have h45 : a ≠ 45 := by omega
  have h43 : a ≠ 43 := by omega
  have hx : b ≠ 120 := by omega
  have hX : b ≠ 88 := by omega
  have hva := hexVal_lt a
  have hvb := hexVal_lt b
  simp [byteOfSlice, parseInt16, List.dropWhile, hws, h45, h43, hx, hX, List.takeWhile, ha, hb,
    digitsValue, toUint8]
  omega

theorem byteOfSlice_hex_nonhex (a b : Nat) (ha : isHexDigit a = true)
    (hb : isHexDigit b = false) : byteOfSlice [a, b] = hexVal a := by
  have hws := not_ws_of_hex a ha
  have ha2 := (isHexDigit_iff a).1 ha
  have h45 : a ≠ 45 := by omega
  have h43 : a ≠ 43 := by omega
  have hva := hexVal_lt a
  by_cases hp : a = 48 ∧ (b = 120 ∨ b = 88)
  · obtain ⟨rfl, hb2 | hb2⟩ := hp <;> subst hb2 <;> decide
  · have hp2 : ¬ (a = 48 ∧ b = 120) := fun h => hp ⟨h.1, Or.inl h.2⟩
    have hp3 : ¬ (a = 48 ∧ b = 88) := fun h => hp ⟨h.1, Or.inr h.2⟩
    simp [byteOfSlice, parseInt16, List.dropWhile, hws, h45, h43, hp2, hp3, List.takeWhile, ha, hb,
      digitsValue, toUint8]
    omega

theorem byteOfSlice_no_digit (a b : Nat) (ha : isHexDigit a = false)
    (hws : isStrWhiteSpaceChar a = false) (h43 : a ≠ 43) (h45 : a ≠ 45) :
    byteOfSlice [a, b] = 0 := by
  have h48 : a ≠ 48 := by
    rintro rfl
    exact absurd ha (by decide)
  simp [byteOfSlice, parseInt16, List.dropWhile, hws, h45, h43, h48, List.takeWhile, ha, toUint8]

theorem foldl_pairsMap_hex :
    ∀ (d : JSString) (acc : Nat), IsHexString d → d.length % 2 = 0 →
      (pairsMap byteOfSlice d).foldl (fun acc b => acc * 256 + b) acc
        = d.foldl (fun acc c => acc * 16 + hexVal c) acc
  | [], acc, _, _ => by simp [pairsMap]
  | [_], acc, _, hl => by simp at hl
  | a :: b :: rest, acc, hd, hl => by
    have ha : isHexDigit a = true := hd a (by simp)
    have hb : isHexDigit b = true := hd b (by simp)
    have hrest : IsHexString rest := fun c hc => hd c (by simp [hc])
    have hl2 : rest.length % 2 = 0 := by
      simp only [List.length_cons] at hl; omega
    simp only [pairsMap, List.foldl_cons, byteOfSlice_hex_hex a b ha hb]
    rw [foldl_pairsMap_hex rest _ hrest hl2]
    congr 1
    ring

theorem isHexString_padded (d : JSString) (hd : IsHexString d) : IsHexString (padded d) := by
  unfold padded
  split
  · intro c hc
    rcases List.mem_cons.1 hc with rfl | hc
    · decide
    · exact hd c hc
  · exact hd

theorem digitsValue_padded (d : JSString) : digitsValue (padded d) = digitsValue d := by
  unfold padded
  split
  · simp [digitsValue, hexVal, hexDigitValue]
  · rfl

theorem bytesValue_hexToUint8ArrayStr (h : JSString) (hv : IsHexString (stripped h)) :
    bytesValue (hexToUint8ArrayStr h) = digitsValue (stripped h) := by
  rw [hexToUint8ArrayStr_pairs, ← digitsValue_padded]
  exact foldl_pairsMap_hex _ 0 (isHexString_padded _ hv) (padded_length_even _)

theorem getD_of_getElem? (d : JSString) (i a : Nat) (h : d[i]? = some a) : d.getD i 0 = a := by
  simp [List.getD, h]

/-- The bytes of a string whose stripped form is all digits, by index. -/
theorem hexToUint8ArrayStr_getElem? (h : JSString) (hv : IsHexString (stripped h)) (i : Nat)
    (hi : i < (padded (stripped h)).length / 2) :
    (hexToUint8ArrayStr h)[i]?
      = some (16 * hexVal ((padded (stripped h)).getD (2 * i) 0)
          + hexVal ((padded (stripped h)).getD (2 * i + 1) 0)) := by
  have hp := isHexString_padded _ hv
  have h0 : 2 * i < (padded (stripped h)).length := by omega
  have h1 : 2 * i + 1 < (padded (stripped h)).length := by omega
  have e0 : (padded (stripped h))[2 * i]? = some ((padded (stripped h))[2 * i]) :=
    List.getElem?_eq_getElem h0
  have e1 : (padded (stripped h))[2 * i + 1]? = some ((padded (stripped h))[2 * i + 1]) :=
    List.getElem?_eq_getElem h1
  rw [hexToUint8ArrayStr_pairs, pairsMap_getElem? byteOfSlice _ i _ _ e0 e1,
    getD_of_getElem? _ _ _ e0, getD_of_getElem? _ _ _ e1,
    byteOfSlice_hex_hex _ _ (hp _ (List.getElem_mem _)) (hp _ (List.getElem_mem _))]

theorem stripped_0x_append (h : JSString) : stripped (units "0x" ++ h) = h := by
  simp [stripped, units_0x]

theorem stripped_0X_append (h : JSString) : stripped (units "0X" ++ h) = h := by
  simp [stripped, units_0X]

theorem stripped_of_hex (d : JSString) (hd : IsHexString d) : stripped d = d := by
  unfold stripped
  split
  · rename_i hp
    match d, hd, hp with
    | [], _, hp => simp at hp
    | [_], _, hp => simp at hp
    | a :: b :: rest, hd, hp =>
      have hb : isHexDigit b = true := hd b (by simp)
      have hb2 := (isHexDigit_iff b).1 hb
      simp only [List.take_succ_cons, List.take_zero, List.cons.injEq, and_true] at hp
      omega
  · rfl

theorem hexToUint8ArrayStr_0x (h : JSString) :
    hexToUint8ArrayStr (units "0x" ++ h) = pairsMap byteOfSlice (padded h) := by
  rw [hexToUint8ArrayStr_pairs, stripped_0x_append]

theorem hexToUint8ArrayStr_0X (h : JSString) :
    hexToUint8ArrayStr (units "0X" ++ h) = pairsMap byteOfSlice (padded h) := by
  rw [hexToUint8ArrayStr_pairs, stripped_0X_append]

theorem hexToUint8ArrayStr_digits (d : JSString) (hd : IsHexString d) :
    hexToUint8ArrayStr d = pairsMap byteOfSlice (padded d) := by
  rw [hexToUint8ArrayStr_pairs, stripped_of_hex d hd]

theorem padded_zero_cons (d : JSString) (hodd : d.length % 2 = 1) :
    padded (units "0" ++ d) = padded d := by
  have h1 : (48 :: d).length % 2 ≠ 1 := by simp only [List.length_cons]; omega
  simp [padded, units_0, hodd, h1]
  omega

/-! ## Properties of `hexToUint8Array` -/

/-- C1: for every string whose characters after an optional leading 0x/0X are
all hex digits, `hexToUint8Array` returns the big-endian bytes of the digit
string: with `d` the digits left-padded with one `0` when their count is odd,
the result has `len(d)/2` bytes, byte `i` is `16 * value(d[2i]) + value(d[2i+1])`,
and the bytes read most-significant first denote the number the digits
denote. -/
theorem C1_hexToUint8Array_big_endian (h : JSString) (hv : IsHexString (stripped h)) :
    ∃ out : ByteBuffer, hexToUint8Array (.str h) = .ok out ∧
      out.length = (padded (stripped h)).length / 2 ∧
      (∀ i, i < (padded (stripped h)).length / 2 →
        out[i]? = some (16 * hexVal ((padded (stripped h)).getD (2 * i) 0)
          + hexVal ((padded (stripped h)).getD (2 * i + 1) 0))) ∧
      bytesValue out = digitsValue (stripped h) := by
  refine ⟨hexToUint8ArrayStr h, rfl, ?_, ?_, bytesValue_hexToUint8ArrayStr h hv⟩
  · rw [hexToUint8ArrayStr_pairs, pairsMap_length]
  · intro i hi
    exact hexToUint8ArrayStr_getElem? h hv i hi

/-- C1 at `"1234"`, whose bytes are `[0x12, 0x34]`. -/
theorem C1_hexToUint8Array_big_endian_witness :
    IsHexString (stripped (units "1234")) ∧
    (∃ out : ByteBuffer, hexToUint8Array (.str (units "1234")) = .ok out ∧
      out.length = (padded (stripped (units "1234"))).length / 2 ∧
      (∀ i, i < (padded (stripped (units "1234"))).length / 2 →
        out[i]? = some (16 * hexVal ((padded (stripped (units "1234"))).getD (2 * i) 0)
          + hexVal ((padded (stripped (units "1234"))).getD (2 * i + 1) 0))) ∧
      bytesValue out = digitsValue (stripped (units "1234"))) ∧
    hexToUint8Array (.str (units "1234")) = .ok [0x12, 0x34] :=
  ⟨by decide, C1_hexToUint8Array_big_endian (units "1234") (by decide), by decide⟩

/-- C2 as stated fails at `"12g4"`: a character outside the hex digits remains
after stripping and padding, and `hexToUint8Array` raises no error but returns
the two-byte buffer `[0x12, 0x00]`. -/
theorem C2_counterexample :
    ¬ IsHexString (padded (stripped (units "12g4"))) ∧
    hexToUint8Array (.str (units "12g4")) = .ok [0x12, 0x00] ∧
    ¬ ∃ e, hexToUint8Array (.str (units "12g4")) = .error e := by
  refine ⟨by decide, by decide, ?_⟩
  rintro ⟨e, he⟩
  exact absurd he (by simp [hexToUint8Array])

/-- C2 (amended): on every string `hexToUint8Array` returns a buffer and never
an error, whatever characters remain after the prefix is stripped. The buffer
has `ceil(n/2)` bytes for `n` remaining characters; a pair that is a hex digit
followed by a non-digit yields the value of that digit, and a pair that starts
with a character that is neither a hex digit, white space, `+` nor `-` yields
0. -/
theorem C2_hexToUint8Array_never_fails (h : JSString) :
    ∃ out : ByteBuffer, hexToUint8Array (.str h) = .ok out ∧
      out.length = ((stripped h).length + 1) / 2 ∧
      ∀ i a b, (padded (stripped h))[2 * i]? = some a →
        (padded (stripped h))[2 * i + 1]? = some b →
        (isHexDigit a = true → isHexDigit b = false → out[i]? = some (hexVal a)) ∧
        (isHexDigit a = false → isStrWhiteSpaceChar a = false → a ≠ 43 → a ≠ 45 →
          out[i]? = some 0) := by
  refine ⟨hexToUint8ArrayStr h, rfl, hexToUint8ArrayStr_length h, ?_⟩
  intro i a b ha hb
  rw [hexToUint8ArrayStr_pairs, pairsMap_getElem? byteOfSlice _ i a b ha hb]
  refine ⟨fun h1 h2 => ?_, fun h1 h2 h3 h4 => ?_⟩
  · rw [byteOfSlice_hex_nonhex a b h1 h2]
  · rw [byteOfSlice_no_digit a b h1 h2 h3 h4]

/-- C2 (amended) at `"12g4"`: the call returns two bytes, the second of which,
read from the pair `g4`, is 0. -/
theorem C2_hexToUint8Array_never_fails_witness :
    ∃ out : ByteBuffer, hexToUint8Array (.str (units "12g4")) = .ok out ∧
      out.length = 2 ∧ out[1]? = some 0 := by
  obtain ⟨out, hout, hlen, hpairs⟩ := C2_hexToUint8Array_never_fails (units "12g4")
  refine ⟨out, hout, hlen, ?_⟩
  exact (hpairs 1 103 52 (by decide) (by decide)).2 (by decide) (by decide) (by decide) (by decide)

/-- C3 as stated fails at `h = "0x12"`, a valid hex string with a prefix of
its own: `"0x" + h` decodes to `[0x00, 0x12]` and `h` to `[0x12]`. -/
theorem C3_counterexample :
    IsHexString (stripped (units "0x12")) ∧
    hexToUint8Array (.str (units "0x" ++ units "0x12")) = .ok [0x00, 0x12] ∧
    hexToUint8Array (.str (units "0x12")) = .ok [0x12] ∧
    hexToUint8Array (.str (units "0x" ++ units "0x12")) ≠ hexToUint8Array (.str (units "0x12")) := by
  decide

/-- C3 (amended): for every string `h` of hex digits with no prefix of its
own, of even or odd length, `hexToUint8Array("0x" + h)` equals
`hexToUint8Array(h)`, and both are a returned buffer. -/
theorem C3_hexToUint8Array_prefix_invariant (h : JSString) (hv : IsHexString h) :
    hexToUint8Array (.str (units "0x" ++ h)) = hexToUint8Array (.str h) ∧
    ∃ out : ByteBuffer, hexToUint8Array (.str h) = .ok out := by
  refine ⟨?_, hexToUint8ArrayStr h, rfl⟩
  simp only [hexToUint8Array]
  rw [hexToUint8ArrayStr_0x, hexToUint8ArrayStr_digits h hv]

/-- C3 (amended) at the odd-length digit string `"abc"`. -/
theorem C3_hexToUint8Array_prefix_invariant_witness :
    IsHexString (units "abc") ∧
    (hexToUint8Array (.str (units "0x" ++ units "abc")) = hexToUint8Array (.str (units "abc")) ∧
      ∃ out : ByteBuffer, hexToUint8Array (.str (units "abc")) = .ok out) :=
  ⟨by decide, C3_hexToUint8Array_prefix_invariant (units "abc") (by decide)⟩

/-- C4: for every string whose characters after an optional 0x/0X prefix are
all hex digits, the buffer `hexToUint8Array` returns has `ceil(n / 2)` bytes,
`n` being the number of characters left after the prefix; with no digit left
the buffer is empty. -/
theorem C4_hexToUint8Array_length (h : JSString) (_hv : IsHexString (stripped h)) :
    ∃ out : ByteBuffer, hexToUint8Array (.str h) = .ok out ∧
      out.length = ((stripped h).length + 1) / 2 ∧
      (stripped h = [] → out = []) := by
  refine ⟨hexToUint8ArrayStr h, rfl, hexToUint8ArrayStr_length h, ?_⟩
  intro he
  apply List.eq_nil_of_length_eq_zero
  rw [hexToUint8ArrayStr_length, he]
  rfl

/-- C4 at `"0xabc"`: three digits after the prefix, two bytes. -/
theorem C4_hexToUint8Array_length_witness :
    IsHexString (stripped (units "0xabc")) ∧
    (∃ out : ByteBuffer, hexToUint8Array (.str (units "0xabc")) = .ok out ∧
      out.length = ((stripped (units "0xabc")).length + 1) / 2 ∧
      (stripped (units "0xabc") = [] → out = [])) ∧
    ((stripped (units "0xabc")).length + 1) / 2 = 2 :=
  ⟨by decide, C4_hexToUint8Array_length (units "0xabc") (by decide), by decide⟩

/-- C5: for every string `d` of hex digits of odd length, `hexToUint8Array`
returns one and the same buffer for `d`, `"0" + d`, `"0x" + d`, `"0x0" + d`,
`"0X" + d` and `"0X0" + d`. Its first byte is the value of the first digit of
`d` (the pad is the most-significant nibble), byte `i > 0` is
`16 * value(d[2i-1]) + value(d[2i])`, and the bytes denote the number the
digits of `d` denote. -/
theorem C5_hexToUint8Array_odd_pad (d : JSString) (hd : IsHexString d)
    (hodd : d.length % 2 = 1) :
    ∃ out : ByteBuffer,
      hexToUint8Array (.str d) = .ok out ∧
      hexToUint8Array (.str (units "0" ++ d)) = .ok out ∧
      hexToUint8Array (.str (units "0x" ++ d)) = .ok out ∧
      hexToUint8Array (.str (units "0x" ++ (units "0" ++ d))) = .ok out ∧
      hexToUint8Array (.str (units "0X" ++ d)) = .ok out ∧
      hexToUint8Array (.str (units "0X" ++ (units "0" ++ d))) = .ok out ∧
      out[0]? = some (hexVal (d.getD 0 0)) ∧
      (∀ i, 0 < i → i < out.length →
        out[i]? = some (16 * hexVal (d.getD (2 * i - 1) 0) + hexVal (d.getD (2 * i) 0))) ∧
      bytesValue out = digitsValue d := by
  have hd0 : IsHexString (units "0" ++ d) := by
    intro c hc
    rw [units_0] at hc
    rcases List.mem_cons.1 hc with rfl | hc
    · decide
    · exact hd c hc
  have hs : stripped d = d := stripped_of_hex d hd
  have hpad : padded d = 48 :: d := by simp [padded, hodd]
  have hidx : ∀ i, i < (hexToUint8ArrayStr d).length →
      (hexToUint8ArrayStr d)[i]?
        = some (16 * hexVal ((48 :: d).getD (2 * i) 0) + hexVal ((48 :: d).getD (2 * i + 1) 0)) := by
    intro i hi
    have h := hexToUint8ArrayStr_getElem? d (hs.symm ▸ hd) i
      (by rw [hexToUint8ArrayStr_pairs, pairsMap_length] at hi; exact hi)
    rw [hs, hpad] at h
    exact h
  have hpos : 0 < (hexToUint8ArrayStr d).length := by
    rw [hexToUint8ArrayStr_length, hs]; omega
  refine ⟨hexToUint8ArrayStr d, rfl, ?_, ?_, ?_, ?_, ?_, ?_, ?_, ?_⟩
  · simp only [hexToUint8Array]
    rw [hexToUint8ArrayStr_digits _ hd0, hexToUint8ArrayStr_digits d hd, padded_zero_cons d hodd]
  · simp only [hexToUint8Array]
    rw [hexToUint8ArrayStr_0x, hexToUint8ArrayStr_digits d hd]
  · simp only [hexToUint8Array]
    rw [hexToUint8ArrayStr_0x, hexToUint8ArrayStr_digits d hd, padded_zero_cons d hodd]
  · simp only [hexToUint8Array]
    rw [hexToUint8ArrayStr_0X, hexToUint8ArrayStr_digits d hd]
  · simp only [hexToUint8Array]
    rw [hexToUint8ArrayStr_0X, hexToUint8ArrayStr_digits d hd, padded_zero_cons d hodd]
  · rw [hidx 0 hpos]
    simp [List.getD, hexVal, hexDigitValue]
  · intro i hi0 hi
    rw [hidx i hi]
    obtain ⟨j, rfl⟩ : ∃ j, i = j + 1 := ⟨i - 1, by omega⟩
    have h1 : 2 * (j + 1) = (2 * j + 1) + 1 := by ring
    have h2 : 2 * (j + 1) - 1 = 2 * j + 1 := by omega
    rw [h2, h1]
    simp only [List.getD_cons_succ]
  · have h := bytesValue_hexToUint8ArrayStr d (hs.symm ▸ hd)
    rw [hs] at h
    exact h

/-- C5 at `"abc"`: `"0xabc"` and `"0abc"` both decode to `[0x0a, 0xbc]`. -/
theorem C5_hexToUint8Array_odd_pad_witness :
    (IsHexString (units "abc") ∧ (units "abc").length % 2 = 1) ∧
    (∃ out : ByteBuffer,
      hexToUint8Array (.str (units "abc")) = .ok out ∧
      hexToUint8Array (.str (units "0" ++ units "abc")) = .ok out ∧
      hexToUint8Array (.str (units "0x" ++ units "abc")) = .ok out ∧
      hexToUint8Array (.str (units "0x" ++ (units "0" ++ units "abc"))) = .ok out ∧
      hexToUint8Array (.str (units "0X" ++ units "abc")) = .ok out ∧
      hexToUint8Array (.str (units "0X" ++ (units "0" ++ units "abc"))) = .ok out ∧
      out[0]? = some (hexVal ((units "abc").getD 0 0)) ∧
      (∀ i, 0 < i → i < out.length →
        out[i]? = some (16 * hexVal ((units "abc").getD (2 * i - 1) 0)
          + hexVal ((units "abc").getD (2 * i) 0))) ∧
      bytesValue out = digitsValue (units "abc")) ∧
    hexToUint8Array (.str (units "0xabc")) = .ok [0x0a, 0xbc] ∧
    hexToUint8Array (.str (units "0abc")) = .ok [0x0a, 0xbc] :=
  ⟨⟨by decide, by decide⟩, C5_hexToUint8Array_odd_pad (units "abc") (by decide) (by decide),
    by decide, by decide⟩

/-! ## Lemmas on `flattenUint8Arrays` -/

theorem foldl_add_length (arrays : List ByteBuffer) (acc : Nat) :
    arrays.foldl (fun acc val => acc + val.length) acc = acc + (arrays.map List.length).sum := by
  induction arrays generalizing acc with
  | nil => simp
  | cons a rest ih => simp only [List.foldl_cons, ih, List.map_cons, List.sum_cons]; omega

theorem typedArraySet_append (done tail arr : ByteBuffer) (hfit : arr.length ≤ tail.length) :
    typedArraySet (done ++ tail) arr done.length = .ok (done ++ arr ++ tail.drop arr.length) := by
  unfold typedArraySet
  have hle : ¬ (done.length + arr.length > (done ++ tail).length) := by
    simp only [List.length_append]; omega
  rw [if_neg hle, List.take_left]
  have hd : List.drop (done.length + arr.length) (done ++ tail) = List.drop arr.length tail := by
    rw [← List.drop_drop, List.drop_left]
  rw [hd]

/-- The loop of `flattenUint8Arrays`, started with `done` already written and
`offset = done.length`, writes the remaining arrays right after `done`. -/
theorem foldlM_flattenStep :
    ∀ (arrays : List ByteBuffer) (done tail : ByteBuffer),
      (arrays.map List.length).sum ≤ tail.length →
      arrays.foldlM flattenStep (done ++ tail, done.length)
        = .ok (done ++ arrays.flatten ++ tail.drop (arrays.map List.length).sum,
            done.length + (arrays.map List.length).sum)
  | [], done, tail, _ => by simp [pure, Except.pure]
  | arr :: rest, done, tail, hfit => by
    simp only [List.map_cons, List.sum_cons] at hfit
    have h1 : arr.length ≤ tail.length := by omega
    have h2 : (rest.map List.length).sum ≤ (tail.drop arr.length).length := by
      rw [List.length_drop]; omega
    have ih := foldlM_flattenStep rest (done ++ arr) (tail.drop arr.length) h2
    rw [List.foldlM_cons]
    simp only [flattenStep, typedArraySet_append done tail arr h1]
    simp only [bind, Except.bind, pure, Except.pure]
    have hl : done.length + arr.length = (done ++ arr).length := by simp
    rw [hl, ih]
    simp only [List.flatten_cons, List.map_cons, List.sum_cons, List.drop_drop, List.append_assoc,
      List.length_append, Nat.add_assoc]

theorem flattenUint8Arrays_eq (arrays : List ByteBuffer) :
    flattenUint8Arrays arrays = .ok arrays.flatten := by
  unfold flattenUint8Arrays
  have h := foldlM_flattenStep arrays [] (List.replicate (arrays.map List.length).sum 0) (by simp)
  simp only [List.nil_append, List.length_nil, Nat.zero_add] at h
  simp only [foldl_add_length, Nat.zero_add, h]
  simp [bind, Except.bind, pure, Except.pure]

theorem flatten_getElem? (bs : List ByteBuffer) (i k : Nat) (hi : i < bs.length)
    (hk : k < (bs.get ⟨i, hi⟩).length) :
    bs.flatten[((bs.take i).map List.length).sum + k]? = some ((bs.get ⟨i, hi⟩).get ⟨k, hk⟩) := by
  have hsplit : bs = bs.take i ++ bs.get ⟨i, hi⟩ :: bs.drop (i + 1) := by
    rw [List.get_eq_getElem, ← List.drop_eq_getElem_cons hi, List.take_append_drop]
  have hf : bs.flatten = (bs.take i).flatten ++ (bs.get ⟨i, hi⟩ ++ (bs.drop (i + 1)).flatten) := by
    conv_lhs => rw [hsplit]
    rw [List.flatten_append, List.flatten_cons]
  rw [hf, ← List.length_flatten, List.getElem?_append_right (by omega), Nat.add_sub_cancel_left,
    List.getElem?_append_left hk, List.getElem?_eq_getElem hk]
  rfl

theorem mapM_hexToUint8Array_str (fs : List JSString) :
    (fs.map JSValue.str).mapM hexToUint8Array = .ok (fs.map hexToUint8ArrayStr) := by
  induction fs with
  | nil => rfl
  | cons f rest ih =>
    rw [List.map_cons, List.mapM_cons, ih]
    rfl

theorem flattenFieldsAsArray_str (fs : List JSString) :
    flattenFieldsAsArray (.arr (fs.map .str)) = .ok (fs.map hexToUint8ArrayStr).flatten := by
  simp only [flattenFieldsAsArray, mapM_hexToUint8Array_str]
  exact flattenUint8Arrays_eq _

theorem mapM_hexToUint8Array_error (pre : List JSString) (x : JSValue) (post : List JSValue)
    (e : JSError) (hx : hexToUint8Array x = .error e) :
    (pre.map JSValue.str ++ x :: post).mapM hexToUint8Array = .error e := by
  rw [List.mapM_append, mapM_hexToUint8Array_str, List.mapM_cons, hx]
  rfl

/-! ## Properties of `flattenUint8Arrays` and `flattenFieldsAsArray` -/

/-- C6: for every sequence of byte buffers `b1..bn`, `flattenUint8Arrays`
returns their concatenation in input order: byte `k` of `bi` is at output
index `len(b1) + ... + len(b(i-1)) + k`. -/
theorem C6_flattenUint8Arrays_concat (bs : List ByteBuffer) :
    ∃ out : ByteBuffer, flattenUint8Arrays bs = .ok out ∧ out = bs.flatten ∧
      ∀ (i k : Nat) (hi : i < bs.length) (hk : k < (bs.get ⟨i, hi⟩).length),
        out[((bs.take i).map List.length).sum + k]? = some ((bs.get ⟨i, hi⟩).get ⟨k, hk⟩) :=
  ⟨bs.flatten, flattenUint8Arrays_eq bs, rfl, fun i k hi hk => flatten_getElem? bs i k hi hk⟩

/-- C6 at `[[1,2],[3],[4,5,6]]`: the result is `[1,2,3,4,5,6]` and byte 1 of
the third buffer is at index `2 + 1 + 1`. -/
theorem C6_flattenUint8Arrays_concat_witness :
    flattenUint8Arrays [[1, 2], [3], [4, 5, 6]] = .ok [1, 2, 3, 4, 5, 6] ∧
    ∃ out : ByteBuffer, flattenUint8Arrays [[1, 2], [3], [4, 5, 6]] = .ok out ∧
      out[2 + 1 + 1]? = some 5 := by
  obtain ⟨out, hout, _, hidx⟩ := C6_flattenUint8Arrays_concat [[1, 2], [3], [4, 5, 6]]
  exact ⟨by decide, out, hout, hidx 2 1 (by decide) (by decide)⟩

/-- C7: for every sequence of byte buffers, `flattenUint8Arrays` returns a
buffer whose length is the sum of the lengths of the inputs; on the empty
sequence it returns the empty buffer, not an error. -/
theorem C7_flattenUint8Arrays_length (bs : List ByteBuffer) :
    (∃ out : ByteBuffer, flattenUint8Arrays bs = .ok out ∧
      out.length = (bs.map List.length).sum) ∧
    flattenUint8Arrays [] = .ok [] :=
  ⟨⟨bs.flatten, flattenUint8Arrays_eq bs, List.length_flatten bs⟩, flattenUint8Arrays_eq []⟩

/-- C8: for every sequence of field elements whose characters after an
optional prefix are hex digits, `flattenFieldsAsArray` returns the
concatenation, in the same order, of the buffers `hexToUint8Array` returns
for the elements, which is `flattenUint8Arrays` of those buffers. -/
theorem C8_flattenFieldsAsArray_concat (fs : List JSString)
    (_hv : ∀ f ∈ fs, IsHexString (stripped f)) :
    ∃ bufs : List ByteBuffer,
      fs.map (fun f => hexToUint8Array (.str f)) = bufs.map Except.ok ∧
      flattenFieldsAsArray (.arr (fs.map .str)) = .ok bufs.flatten ∧
      flattenFieldsAsArray (.arr (fs.map .str)) = flattenUint8Arrays bufs := by
  refine ⟨fs.map hexToUint8ArrayStr, ?_, flattenFieldsAsArray_str fs, ?_⟩
  · simp [hexToUint8Array]
  · rw [flattenFieldsAsArray_str, flattenUint8Arrays_eq]

/-- C8 at `["0x01", "0xff"]`, with the values of that call and of the example
in the source file. -/
theorem C8_flattenFieldsAsArray_concat_witness :
    (∀ f ∈ [units "0x01", units "0xff"], IsHexString (stripped f)) ∧
    (∃ bufs : List ByteBuffer,
      [units "0x01", units "0xff"].map (fun f => hexToUint8Array (.str f)) = bufs.map Except.ok ∧
      flattenFieldsAsArray (.arr ([units "0x01", units "0xff"].map .str)) = .ok bufs.flatten ∧
      flattenFieldsAsArray (.arr ([units "0x01", units "0xff"].map .str))
        = flattenUint8Arrays bufs) ∧
    flattenFieldsAsArray (.arr [.str (units "0x01"), .str (units "0xff")]) = .ok [0x01, 0xff] ∧
    flattenFieldsAsArray (.arr [.str (units "0x1234"), .str (units "0xabcd"),
        .str (units "0xdeadbeef")])
      = .ok [0x12, 0x34, 0xab, 0xcd, 0xde, 0xad, 0xbe, 0xef] :=
  ⟨by decide, C8_flattenFieldsAsArray_concat [units "0x01", units "0xff"] (by decide),
    by decide, by decide⟩

/-- C9 as stated fails at `["0x01", "12g4"]`: the second element contains the
non-hex character `g`, and `flattenFieldsAsArray` raises no error but returns
the buffer `[0x01, 0x12, 0x00]`. -/
theorem C9_counterexample :
    ¬ IsHexString (stripped (units "12g4")) ∧
    flattenFieldsAsArray (.arr [.str (units "0x01"), .str (units "12g4")])
      = .ok [0x01, 0x12, 0x00] ∧
    ¬ ∃ e, flattenFieldsAsArray (.arr [.str (units "0x01"), .str (units "12g4")]) = .error e := by
  refine ⟨by decide, by decide, ?_⟩
  rintro ⟨e, he⟩
  have h : flattenFieldsAsArray (.arr [.str (units "0x01"), .str (units "12g4")])
      = .ok [0x01, 0x12, 0x00] := by decide
  rw [h] at he
  exact absurd he (by simp)

/-- C9 (amended): on every sequence of field-element strings, whatever
characters they contain, `flattenFieldsAsArray` returns the concatenation of
the buffers `hexToUint8Array` returns for the elements in order. It fails only
when `hexToUint8Array` fails on an element: when the elements before `x` are
strings and `hexToUint8Array(x)` throws `e`, the call throws `e` and returns
no buffer. -/
theorem C9_flattenFieldsAsArray_failure (fs : List JSString) (x : JSValue) (post : List JSValue)
    (e : JSError) :
    (∃ bufs : List ByteBuffer,
      fs.map (fun f => hexToUint8Array (.str f)) = bufs.map Except.ok ∧
      flattenFieldsAsArray (.arr (fs.map .str)) = .ok bufs.flatten) ∧
    (hexToUint8Array x = .error e →
      flattenFieldsAsArray (.arr (fs.map .str ++ x :: post)) = .error e) := by
  refine ⟨⟨fs.map hexToUint8ArrayStr, ?_, flattenFieldsAsArray_str fs⟩, fun hx => ?_⟩
  · simp [hexToUint8Array]
  · simp only [flattenFieldsAsArray, mapM_hexToUint8Array_error fs x post e hx]
    rfl

/-- C9 (amended) at `["0x01", "12g4"]` followed by the number 5, which is not
a string: the two strings alone give a buffer, and with the number the call
throws the `TypeError` of `hexToUint8Array(5)`. -/
theorem C9_flattenFieldsAsArray_failure_witness :
    hexToUint8Array (.num 5) = .error .typeError ∧
    flattenFieldsAsArray (.arr ([units "0x01", units "12g4"].map .str
      ++ .num 5 :: [.str (units "0x02")])) = .error .typeError :=
  ⟨rfl, (C9_flattenFieldsAsArray_failure [units "0x01", units "12g4"] (.num 5)
    [.str (units "0x02")] .typeError).2 rfl⟩

/-! ## Properties of the byte extraction in `generateVK` -/

theorem extractBinary_u8 (b : ByteBuffer) (field : String) :
    extractBinary (.u8 b) field = .ok (.u8 b) := rfl

theorem extractBinary_obj_u8 (props : List (String × JSValue)) (field : String) (b : ByteBuffer)
    (h : props.lookup field = some (.u8 b)) :
    extractBinary (.obj props) field = .ok (.u8 b) := by
  simp [extractBinary, instanceofUint8Array, truthy, getProp, h, bind, Except.bind, pure,
    Except.pure]

theorem extractBinary_no_shape (v : JSValue) (field : String) (h : ¬ MatchesShape v field) :
    extractBinary v field = .ok .null := by
  cases v with
  | u8 b => exact absurd (Or.inl ⟨b, rfl⟩) h
  | obj props =>
    cases hl : props.lookup field with
    | none =>
      simp [extractBinary, instanceofUint8Array, truthy, getProp, hl, bind, Except.bind, pure,
        Except.pure]
    | some w =>
      cases w with
      | u8 b => exact absurd (Or.inr ⟨props, b, rfl, hl⟩) h
      | _ =>
        simp [extractBinary, instanceofUint8Array, truthy, getProp, hl, bind, Except.bind, pure,
          Except.pure]
  | _ =>
    simp [extractBinary, instanceofUint8Array, truthy, getProp, bind, Except.bind, pure,
      Except.pure]

theorem extractBinary_shape (v : JSValue) (field : String) (h : MatchesShape v field) :
    ∃ b, extractBinary v field = .ok (.u8 b) := by
  rcases h with ⟨b, rfl⟩ | ⟨props, b, rfl, hl⟩
  · exact ⟨b, rfl⟩
  · exact ⟨b, extractBinary_obj_u8 props field b hl⟩

theorem generateVK_extract_ok (vk proof : JSValue) (a b : ByteBuffer)
    (hvk : extractBinary vk "data" = .ok (.u8 a))
    (hproof : extractBinary proof "proof" = .ok (.u8 b)) :
    generateVK_extract vk proof = .ok (.u8 a, .u8 b) := by
  simp [generateVK_extract, hvk, hproof, truthy, bind, Except.bind, pure, Except.pure]

theorem generateVK_extract_error (vk proof : JSValue)
    (h : ¬ MatchesShape vk "data" ∨ ¬ MatchesShape proof "proof") :
    generateVK_extract vk proof
      = .error (.error "Could not extract binary data from VK or Proof objects.") := by
  by_cases hvk : MatchesShape vk "data"
  · have hproof : ¬ MatchesShape proof "proof" := h.resolve_left (not_not_intro hvk)
    obtain ⟨a, ha⟩ := extractBinary_shape vk "data" hvk
    simp [generateVK_extract, ha, extractBinary_no_shape proof "proof" hproof, truthy, bind,
      Except.bind, pure, Except.pure, throw, throwThe, MonadExceptOf.throw]
  · by_cases hproof : MatchesShape proof "proof"
    · obtain ⟨b, hb⟩ := extractBinary_shape proof "proof" hproof
      simp [generateVK_extract, hb, extractBinary_no_shape vk "data" hvk, truthy, bind,
        Except.bind, pure, Except.pure, throw, throwThe, MonadExceptOf.throw]
    · simp [generateVK_extract, extractBinary_no_shape vk "data" hvk,
        extractBinary_no_shape proof "proof" hproof, truthy, bind,
        Except.bind, pure, Except.pure, throw, throwThe, MonadExceptOf.throw]

/-- C10: byte extraction in `generateVK`, with the wrapper field `data` for the
verification key and `proof` for the proof. An artifact that is a byte buffer
is extracted unchanged; an object whose wrapper field is a byte buffer yields
that field's value; an artifact of neither shape yields `null`. The run throws
exactly when one of the two artifacts matches neither shape, and when it does
not throw the pair it continues with is the two extracted buffers. -/
theorem C10_generateVK_extract (vk proof : JSValue) :
    (∀ b, vk = .u8 b → extractBinary vk "data" = .ok vk) ∧
    (∀ props b, vk = .obj props → props.lookup "data" = some (.u8 b) →
      extractBinary vk "data" = .ok (.u8 b)) ∧
    (∀ b, proof = .u8 b → extractBinary proof "proof" = .ok proof) ∧
    (∀ props b, proof = .obj props → props.lookup "proof" = some (.u8 b) →
      extractBinary proof "proof" = .ok (.u8 b)) ∧
    (¬ MatchesShape vk "data" → extractBinary vk "data" = .ok .null) ∧
    (¬ MatchesShape proof "proof" → extractBinary proof "proof" = .ok .null) ∧
    ((∃ e, generateVK_extract vk proof = .error e)
      ↔ (¬ MatchesShape vk "data" ∨ ¬ MatchesShape proof "proof")) ∧
    (MatchesShape vk "data" ∧ MatchesShape proof "proof" →
      ∃ a b, extractBinary vk "data" = .ok (.u8 a) ∧ extractBinary proof "proof" = .ok (.u8 b) ∧
        generateVK_extract vk proof = .ok (.u8 a, .u8 b)) := by
  refine ⟨?_, ?_, ?_, ?_, extractBinary_no_shape vk "data", extractBinary_no_shape proof "proof",
    ⟨?_, fun h => ⟨_, generateVK_extract_error vk proof h⟩⟩, ?_⟩
  · rintro b rfl; rfl
  · rintro props b rfl hl; exact extractBinary_obj_u8 props "data" b hl
  · rintro b rfl; rfl
  · rintro props b rfl hl; exact extractBinary_obj_u8 props "proof" b hl
  · rintro ⟨e, he⟩
    by_contra hcon
    have hvk : MatchesShape vk "data" := by
      by_contra h; exact hcon (Or.inl h)
    have hproof : MatchesShape proof "proof" := by
      by_contra h; exact hcon (Or.inr h)
    obtain ⟨a, ha⟩ := extractBinary_shape vk "data" hvk
    obtain ⟨b, hb⟩ := extractBinary_shape proof "proof" hproof
    rw [generateVK_extract_ok vk proof a b ha hb] at he
    exact absurd he (by simp)
  · rintro ⟨hvk, hproof⟩
    obtain ⟨a, ha⟩ := extractBinary_shape vk "data" hvk
    obtain ⟨b, hb⟩ := extractBinary_shape proof "proof" hproof
    exact ⟨a, b, ha, hb, generateVK_extract_ok vk proof a b ha hb⟩

/-- C10 at a raw verification key `[1, 2]` and a proof object
`{proof: [3], publicInputs: []}`: both shapes match and the run continues with
`[1, 2]` and `[3]`; with the proof `{}` the run throws. -/
theorem C10_generateVK_extract_witness :
    (MatchesShape (.u8 [1, 2]) "data" ∧
      MatchesShape (.obj [("proof", .u8 [3]), ("publicInputs", .arr [])]) "proof") ∧
    (∃ a b, extractBinary (.u8 [1, 2]) "data" = .ok (.u8 a) ∧
      extractBinary (.obj [("proof", .u8 [3]), ("publicInputs", .arr [])]) "proof" = .ok (.u8 b) ∧
      generateVK_extract (.u8 [1, 2]) (.obj [("proof", .u8 [3]), ("publicInputs", .arr [])])
        = .ok (.u8 a, .u8 b)) ∧
    generateVK_extract (.u8 [1, 2]) (.obj [("proof", .u8 [3]), ("publicInputs", .arr [])])
      = .ok (.u8 [1, 2], .u8 [3]) ∧
    (∃ e, generateVK_extract (.u8 [1, 2]) (.obj []) = .error e) ∧
    (∃ e, generateVK_extract .null (.u8 [3]) = .error e) := by
  have hvk : MatchesShape (.u8 [1, 2]) "data" := Or.inl ⟨_, rfl⟩
  have hproof : MatchesShape (.obj [("proof", .u8 [3]), ("publicInputs", .arr [])]) "proof" :=
    Or.inr ⟨_, [3], rfl, rfl⟩
  exact ⟨⟨hvk, hproof⟩, (C10_generateVK_extract _ _).2.2.2.2.2.2.2 ⟨hvk, hproof⟩, rfl, ⟨_, rfl⟩,
    ⟨_, rfl⟩⟩

/-! ## Properties of calldata generation and persistence in `generateVK` -/

theorem getHonkCallDataArgs_wrapper (vk : JSValue) (props : List (String × JSValue))
    (pb fl : ByteBuffer) (publicInputs : JSValue)
    (hproof : props.lookup "proof" = some (.u8 pb))
    (hpi : props.lookup "publicInputs" = some publicInputs)
    (hfl : flattenFieldsAsArray publicInputs = .ok fl) :
    getHonkCallDataArgs vk (.obj props) = .ok (.u8 pb, fl, vk, 1) := by
  simp [getHonkCallDataArgs, getProp, hproof, hpi, hfl, bind, Except.bind, pure, Except.pure]

theorem getHonkCallDataArgs_raw_proof (vk : JSValue) (raw : ByteBuffer) :
    getHonkCallDataArgs vk (.u8 raw) = .error .typeError := rfl

theorem generateVK_try_traced_called {Elem : Type} (c : Collaborators Elem) (vk proof : JSValue)
    (files : Files) (a : JSValue) (b : ByteBuffer) (v : JSValue) (f : Int)
    (hinit : c.garagaInit = .ok ())
    (hargs : getHonkCallDataArgs vk proof = .ok (a, b, v, f)) :
    generateVK_try_traced c vk proof files
      = (match c.getHonkCallData a b v f with
        | .error e => ((files, .error e), [.init, .getHonkCallData a b v f])
        | .ok callData =>
          (writeCalldataToFile c files callData .calldata,
            [.init, .getHonkCallData a b v f,
              .writeFile .calldata (.str (jsonStringify (callData.map c.elemToString)))])) := by
  simp only [generateVK_try_traced, hinit, hargs]

theorem generateVK_try_called {Elem : Type} (c : Collaborators Elem) (vk proof : JSValue)
    (files : Files) (a : JSValue) (b : ByteBuffer) (v : JSValue) (f : Int)
    (hinit : c.garagaInit = .ok ())
    (hargs : getHonkCallDataArgs vk proof = .ok (a, b, v, f)) :
    generateVK_try c vk proof files
      = (match c.getHonkCallData a b v f with
        | .error e => (files, .error e)
        | .ok callData => writeCalldataToFile c files callData .calldata) := by
  rw [generateVK_try, generateVK_try_traced_called c vk proof files a b v f hinit hargs]
  cases c.getHonkCallData a b v f <;> rfl

/-- C11 as stated fails for two of the variants. With a raw-buffer proof
result extraction succeeds, but evaluating the arguments throws a `TypeError`
(the raw buffer has no `publicInputs`), so no buffer is handed to the
generator. With a wrapper-object verification key extraction yields the
buffer `[1, 2]`, but the third argument handed over is the wrapper object
itself. -/
theorem C11_counterexample :
    (generateVK_extract (.u8 [1, 2]) (.u8 [3]) = .ok (.u8 [1, 2], .u8 [3]) ∧
      getHonkCallDataArgs (.u8 [1, 2]) (.u8 [3]) = .error .typeError) ∧
    (generateVK_extract (.obj [("data", .u8 [1, 2])])
        (.obj [("proof", .u8 [3]), ("publicInputs", .arr [.str (units "0x01")])])
        = .ok (.u8 [1, 2], .u8 [3]) ∧
      getHonkCallDataArgs (.obj [("data", .u8 [1, 2])])
        (.obj [("proof", .u8 [3]), ("publicInputs", .arr [.str (units "0x01")])])
        = .ok (.u8 [3], [0x01], .obj [("data", .u8 [1, 2])], 1) ∧
      JSValue.obj [("data", .u8 [1, 2])] ≠ JSValue.u8 [1, 2]) := by
  refine ⟨⟨rfl, rfl⟩, rfl, rfl, ?_⟩
  intro h
  cases h

/-- C11 (amended): in every run in which extraction succeeds and the proof
result is a wrapper object whose `proof` is a byte buffer and whose
`publicInputs` flatten to `fl`, whichever of the two shapes the
verification-key result has, the calldata generator is called, right after
`init()`, with the proof argument equal to the buffer extracted from the
proof result, the public-input argument equal to
`fl = flattenFieldsAsArray(proof.publicInputs)` and the flavor 1, and its
result is then written; when the verification-key result is a raw byte
buffer, the verification-key argument is the buffer extracted from it. With a
raw-buffer proof result the generator is not called: evaluating the arguments
throws a `TypeError` and `init()` is the only event of the `try` block. -/
theorem C11_getHonkCallData_arguments {Elem : Type} (c : Collaborators Elem) (files : Files)
    (vk : JSValue) (kb pb fl : ByteBuffer) (props : List (String × JSValue))
    (publicInputs : JSValue)
    (hvk : extractBinary vk "data" = .ok (.u8 kb))
    (hproof : props.lookup "proof" = some (.u8 pb))
    (hpi : props.lookup "publicInputs" = some publicInputs)
    (hfl : flattenFieldsAsArray publicInputs = .ok fl)
    (hinit : c.garagaInit = .ok ()) :
    generateVK_extract vk (.obj props) = .ok (.u8 kb, .u8 pb) ∧
    (∃ vkArg : JSValue,
      getHonkCallDataArgs vk (.obj props) = .ok (.u8 pb, fl, vkArg, 1) ∧
      (instanceofUint8Array vk = true → vkArg = .u8 kb) ∧
      generateVK_try c vk (.obj props) files
        = (match c.getHonkCallData (.u8 pb) fl vkArg 1 with
          | .error e => (files, .error e)
          | .ok callData => writeCalldataToFile c files callData .calldata) ∧
      ∃ later : List Event,
        (generateVK_try_traced c vk (.obj props) files).2
          = .init :: .getHonkCallData (.u8 pb) fl vkArg 1 :: later) ∧
    (∀ raw : ByteBuffer,
      getHonkCallDataArgs vk (.u8 raw) = .error .typeError ∧
      generateVK_try_traced c vk (.u8 raw) files = ((files, .error .typeError), [.init])) := by
  have hargs := getHonkCallDataArgs_wrapper vk props pb fl publicInputs hproof hpi hfl
  refine ⟨?_, ⟨vk, hargs, ?_, ?_, ?_⟩, fun raw => ⟨rfl, ?_⟩⟩
  · exact generateVK_extract_ok _ _ kb pb hvk (extractBinary_obj_u8 props "proof" pb hproof)
  · intro hraw
    cases vk with
    | u8 b =>
      have h := extractBinary_u8 b "data"
      rw [hvk] at h
      cases h
      rfl
    | _ => simp [instanceofUint8Array] at hraw
  · exact generateVK_try_called c vk (.obj props) files _ _ _ _ hinit hargs
  · rw [generateVK_try_traced_called c vk (.obj props) files _ _ _ _ hinit hargs]
    cases c.getHonkCallData (.u8 pb) fl vk 1 with
    | error e => exact ⟨[], rfl⟩
    | ok callData => exact ⟨_, rfl⟩
  · simp only [generateVK_try_traced, hinit, getHonkCallDataArgs_raw_proof]

/-- C11 (amended) at the wrapper verification key `{data: [1, 2]}` and the
proof `{proof: [3], publicInputs: ["0x01", "0xff"]}`, with a generator that
returns its flavor argument: the proof and public-input arguments are the
normalized buffers. -/
theorem C11_getHonkCallData_arguments_witness :
    ∃ vkArg : JSValue,
      getHonkCallDataArgs (.obj [("data", .u8 [1, 2])])
        (.obj [("proof", .u8 [3]),
          ("publicInputs", .arr [.str (units "0x01"), .str (units "0xff")])])
        = .ok (.u8 [3], [0x01, 0xff], vkArg, 1) := by
  obtain ⟨_, ⟨vkArg, hargs, _⟩, _⟩ := C11_getHonkCallData_arguments
    (⟨.ok (), fun _ _ _ flavor => .ok [flavor], fun _ => [], fun _ => none, .ok ()⟩ :
      Collaborators Int)
    ⟨none, none, none⟩ (.obj [("data", .u8 [1, 2])]) [1, 2] [3] [0x01, 0xff]
    [("proof", .u8 [3]), ("publicInputs", .arr [.str (units "0x01"), .str (units "0xff")])]
    (.arr [.str (units "0x01"), .str (units "0xff")]) rfl rfl rfl (by decide) rfl
  exact ⟨vkArg, hargs⟩

theorem generateVK_extract_error_eq (vk proof : JSValue) (e : JSError)
    (h : generateVK_extract vk proof = .error e) :
    e = .error "Could not extract binary data from VK or Proof objects." := by
  by_cases hs : MatchesShape vk "data" ∧ MatchesShape proof "proof"
  · obtain ⟨a, ha⟩ := extractBinary_shape vk "data" hs.1
    obtain ⟨b, hb⟩ := extractBinary_shape proof "proof" hs.2
    rw [generateVK_extract_ok vk proof a b ha hb] at h
    cases h
  · have hn : ¬ MatchesShape vk "data" ∨ ¬ MatchesShape proof "proof" := by
      by_contra hcon
      exact hs ⟨by by_contra h1; exact hcon (Or.inl h1), by by_contra h2; exact hcon (Or.inr h2)⟩
    rw [generateVK_extract_error vk proof hn] at h
    cases h
    rfl

/-- C13 as stated fails: the malformed verification keys `null` and `{}`, of
different shapes, raise the same error, and so do a malformed verification
key and a malformed proof; the error is a fixed message that names no type
and no field. -/
theorem C13_counterexample :
    generateVK_extract .null (.u8 [3])
      = .error (.error "Could not extract binary data from VK or Proof objects.") ∧
    generateVK_extract (.obj []) (.u8 [3])
      = .error (.error "Could not extract binary data from VK or Proof objects.") ∧
    generateVK_extract (.u8 [3]) .null
      = .error (.error "Could not extract binary data from VK or Proof objects.") ∧
    generateVK_extract .null (.u8 [3]) = generateVK_extract (.obj []) (.u8 [3]) ∧
    generateVK_extract .null (.u8 [3]) = generateVK_extract (.u8 [3]) .null :=
  ⟨rfl, rfl, rfl, rfl, rfl⟩

/-- C13 (amended): whenever byte extraction fails, the error raised is the
one fixed `Error` with the message "Could not extract binary data from VK or
Proof objects.", whatever the two artifacts are; any two failing extractions
raise equal errors. -/
theorem C13_extraction_error_fixed (vk proof vk2 proof2 : JSValue) (e e2 : JSError)
    (h : generateVK_extract vk proof = .error e)
    (h2 : generateVK_extract vk2 proof2 = .error e2) :
    e = .error "Could not extract binary data from VK or Proof objects." ∧ e = e2 := by
  have he := generateVK_extract_error_eq vk proof e h
  have he2 := generateVK_extract_error_eq vk2 proof2 e2 h2
  exact ⟨he, he.trans he2.symm⟩

/-- C13 (amended) at a malformed verification key `{}` and at a malformed
proof `null`. -/
theorem C13_extraction_error_fixed_witness :
    (generateVK_extract (.obj []) (.u8 [3])
        = .error (.error "Could not extract binary data from VK or Proof objects.") ∧
      generateVK_extract (.u8 [3]) .null
        = .error (.error "Could not extract binary data from VK or Proof objects.")) ∧
    (JSError.error "Could not extract binary data from VK or Proof objects."
        = .error "Could not extract binary data from VK or Proof objects." ∧
      JSError.error "Could not extract binary data from VK or Proof objects."
        = .error "Could not extract binary data from VK or Proof objects.") :=
  ⟨⟨rfl, rfl⟩, C13_extraction_error_fixed (.obj []) (.u8 [3]) (.u8 [3]) .null _ _ rfl rfl⟩

theorem getHonkCallDataArgs_flavor (vk proof : JSValue) (a : JSValue) (b : ByteBuffer)
    (v : JSValue) (f : Int) (h : getHonkCallDataArgs vk proof = .ok (a, b, v, f)) : f = 1 := by
  unfold getHonkCallDataArgs at h
  cases h1 : getProp proof "proof" with
  | error e => simp [h1, bind, Except.bind] at h
  | ok x =>
    cases h2 : getProp proof "publicInputs" with
    | error e => simp [h1, h2, bind, Except.bind] at h
    | ok y =>
      cases h3 : flattenFieldsAsArray y with
      | error e => simp [h1, h2, h3, bind, Except.bind] at h
      | ok z =>
        simp [h1, h2, h3, bind, Except.bind, pure, Except.pure] at h
        exact h.2.2.2.symm

/-- The events of the `try` block: `init()`, a call of the generator with
flavor 1, a write of the calldata file. -/
theorem generateVK_try_traced_events {Elem : Type} (c : Collaborators Elem) (vk proof : JSValue)
    (files : Files) (ev : Event) (hev : ev ∈ (generateVK_try_traced c vk proof files).2) :
    ev = .init ∨ (∃ a b v, ev = .getHonkCallData a b v 1) ∨ ∃ d, ev = .writeFile .calldata d := by
  unfold generateVK_try_traced at hev
  cases h1 : c.garagaInit with
  | error e1 =>
    simp only [h1, List.mem_singleton] at hev
    exact Or.inl hev
  | ok u =>
    cases h2 : getHonkCallDataArgs vk proof with
    | error e2 =>
      simp only [h1, h2, List.mem_singleton] at hev
      exact Or.inl hev
    | ok args =>
      obtain ⟨a, b, v, f⟩ := args
      have hf := getHonkCallDataArgs_flavor vk proof a b v f h2
      subst hf
      cases h3 : c.getHonkCallData a b v 1 with
      | error e3 =>
        simp only [h1, h2, h3, List.mem_cons, List.mem_singleton, List.mem_nil_iff,
          or_false] at hev
        rcases hev with rfl | rfl
        · exact Or.inl rfl
        · exact Or.inr (Or.inl ⟨a, b, v, rfl⟩)
      | ok callData =>
        simp only [h1, h2, h3, List.mem_cons, List.mem_singleton, List.mem_nil_iff,
          or_false] at hev
        rcases hev with rfl | rfl | rfl
        · exact Or.inl rfl
        · exact Or.inr (Or.inl ⟨a, b, v, rfl⟩)
        · exact Or.inr (Or.inr ⟨_, rfl⟩)

/-- The events of the run from line 42 on are writes, events of the `try`
block, the error line of the `catch` block and `backend.destroy()`. -/
theorem generateVK_traced_events_kind {Elem : Type} (c : Collaborators Elem) (vk proof : JSValue)
    (files : Files) (ev : Event) (hev : ev ∈ (generateVK_traced c vk proof files).2) :
    (∃ p d, ev = .writeFile p d) ∨ (∃ f, ev ∈ (generateVK_try_traced c vk proof f).2)
      ∨ (∃ e, ev = .logError e) ∨ ev = .destroy := by
  unfold generateVK_traced at hev
  cases h1 : generateVK_extract vk proof with
  | error e1 => simp [h1] at hev
  | ok ext =>
    obtain ⟨vkBytes, proofBytes⟩ := ext
    simp only [h1] at hev
    cases h2 : writeFile c.writeFailure files .vk vkBytes with
    | mk f2 r2 =>
      cases r2 with
      | error e2 =>
        simp only [h2, List.mem_singleton] at hev
        exact Or.inl ⟨_, _, hev⟩
      | ok u2 =>
        simp only [h2] at hev
        cases h3 : writeFile c.writeFailure f2 .proof proofBytes with
        | mk f3 r3 =>
          cases r3 with
          | error e3 =>
            simp only [h3, List.mem_cons, List.mem_singleton, List.mem_nil_iff,
              or_false] at hev
            rcases hev with rfl | rfl
            · exact Or.inl ⟨_, _, rfl⟩
            · exact Or.inl ⟨_, _, rfl⟩
          | ok u3 =>
            simp only [h3, List.mem_append, List.mem_cons, List.mem_singleton,
              List.mem_nil_iff, or_false, or_assoc] at hev
            rcases hev with rfl | rfl | htry | hcaught | rfl
            · exact Or.inl ⟨_, _, rfl⟩
            · exact Or.inl ⟨_, _, rfl⟩
            · exact Or.inr (Or.inl ⟨f3, htry⟩)
            · refine Or.inr (Or.inr (Or.inl ?_))
              cases h4 : (generateVK_try_traced c vk proof f3).1.2 with
              | error e4 =>
                simp only [h4, List.mem_singleton] at hcaught
                exact ⟨_, hcaught⟩
              | ok u4 => simp [h4] at hcaught
            · exact Or.inr (Or.inr (Or.inr rfl))

/-- The events of the run from line 42 on: none is a call of the backend, and
every call of the generator has flavor 1. -/
theorem generateVK_traced_events {Elem : Type} (c : Collaborators Elem) (vk proof : JSValue)
    (files : Files) (ev : Event) (hev : ev ∈ (generateVK_traced c vk proof files).2) :
    (∀ w o, ev ≠ .generateProof w o) ∧ (∀ o, ev ≠ .getVerificationKey o) ∧
      (∀ a b v f, ev = .getHonkCallData a b v f → f = 1) := by
  rcases generateVK_traced_events_kind c vk proof files ev hev with
    ⟨p, d, rfl⟩ | ⟨f, htry⟩ | ⟨e, rfl⟩ | rfl
  · refine ⟨?_, ?_, ?_⟩ <;> intros <;> simp_all
  · rcases generateVK_try_traced_events c vk proof f ev htry with rfl | ⟨a, b, v, rfl⟩ | ⟨d, rfl⟩
    · refine ⟨?_, ?_, ?_⟩ <;> intros <;> simp_all
    · refine ⟨?_, ?_, ?_⟩ <;> intros <;> simp_all
    · refine ⟨?_, ?_, ?_⟩ <;> intros <;> simp_all
  · refine ⟨?_, ?_, ?_⟩ <;> intros <;> simp_all
  · refine ⟨?_, ?_, ?_⟩ <;> intros <;> simp_all

theorem flavor_code_iff (f : Int) (hf : f = 1) (flavor : Flavor) :
    flavor.code = some f ↔ flavor = .starknet := by
  subst hf
  cases flavor <;> decide

theorem selectsFlavor_generateProofOptions (flavor : Flavor) :
    SelectsFlavor generateProofOptions flavor ↔ flavor = .starknet := by
  cases flavor
  · have h : getProp generateProofOptions Flavor.keccak.backendOption = .ok .undefined := rfl
    simp [SelectsFlavor, h]
  · have h : getProp generateProofOptions Flavor.starknet.backendOption = .ok (.bool true) := rfl
    simp [SelectsFlavor, h]

theorem selectsFlavor_getVerificationKeyOptions (flavor : Flavor) :
    SelectsFlavor getVerificationKeyOptions flavor ↔ flavor = .starknet := by
  cases flavor
  · have h : getProp getVerificationKeyOptions Flavor.keccak.backendOption = .ok .undefined := rfl
    simp [SelectsFlavor, h]
  · have h : getProp getVerificationKeyOptions Flavor.starknet.backendOption
        = .ok (.bool true) := rfl
    simp [SelectsFlavor, h]

/-- The events of the whole run are either calls of lines 20-36 only, with
the option objects of lines 33 and 36, or those four calls followed by the
events of the run from line 42 on. -/
theorem generateVK_run_trace {Elem : Type} (p : Prover) (c : Collaborators Elem)
    (files : Files) :
    (∀ ev ∈ (generateVK_run p c files).2,
      ev = .init ∨ ev = .execute circuitInputs ∨ (∃ w, ev = .generateProof w generateProofOptions)
        ∨ ev = .getVerificationKey getVerificationKeyOptions) ∨
    ∃ w vk proof,
      (generateVK_run p c files).2
        = [.init, .execute circuitInputs, .generateProof w generateProofOptions,
            .getVerificationKey getVerificationKeyOptions]
          ++ (generateVK_traced c vk proof files).2 := by
  unfold generateVK_run
  cases h1 : p.garagaInit with
  | error e1 =>
    left
    intro ev hev
    simp only [List.mem_singleton] at hev
    exact Or.inl hev
  | ok u1 =>
    dsimp only
    cases h2 : p.execute circuitInputs with
    | error e2 =>
      left
      intro ev hev
      simp only [List.mem_cons, List.mem_singleton, List.mem_nil_iff, or_false] at hev
      rcases hev with rfl | rfl
      · exact Or.inl rfl
      · exact Or.inr (Or.inl rfl)
    | ok executed =>
      dsimp only
      cases h3 : getProp executed "witness" with
      | error e3 =>
        left
        intro ev hev
        simp only [List.mem_cons, List.mem_singleton, List.mem_nil_iff, or_false] at hev
        rcases hev with rfl | rfl
        · exact Or.inl rfl
        · exact Or.inr (Or.inl rfl)
      | ok witness =>
        dsimp only
        cases h4 : p.generateProof witness generateProofOptions with
        | error e4 =>
          left
          intro ev hev
          simp only [List.mem_cons, List.mem_singleton, List.mem_nil_iff, or_false] at hev
          rcases hev with rfl | rfl | rfl
          · exact Or.inl rfl
          · exact Or.inr (Or.inl rfl)
          · exact Or.inr (Or.inr (Or.inl ⟨witness, rfl⟩))
        | ok proof =>
          dsimp only
          cases h5 : p.getVerificationKey getVerificationKeyOptions with
          | error e5 =>
            left
            intro ev hev
            simp only [List.mem_cons, List.mem_singleton, List.mem_nil_iff, or_false] at hev
            rcases hev with rfl | rfl | rfl | rfl
            · exact Or.inl rfl
            · exact Or.inr (Or.inl rfl)
            · exact Or.inr (Or.inr (Or.inl ⟨witness, rfl⟩))
            · exact Or.inr (Or.inr (Or.inr rfl))
          | ok vk =>
            right
            exact ⟨witness, vk, proof, rfl⟩

/-- C15: in every run of `generateVK`, every call of the calldata generator
is given the flavor code 1, which is the code `HonkFlavor` gives to STARKNET
and to no other flavor, and comes after the calls of `backend.generateProof`
and `backend.getVerificationKey` of the same run; and every call of
`backend.generateProof` and of `backend.getVerificationKey` is given an
options object that selects the flavor starknet and no other. -/
theorem C15_flavor_starknet {Elem : Type} (p : Prover) (c : Collaborators Elem) (files : Files) :
    (∀ a b v f, Event.getHonkCallData a b v f ∈ (generateVK_run p c files).2 →
      f = 1 ∧ (∀ flavor : Flavor, flavor.code = some f ↔ flavor = .starknet) ∧
      ∃ w before later,
        (generateVK_run p c files).2
          = [.init, .execute circuitInputs, .generateProof w generateProofOptions,
              .getVerificationKey getVerificationKeyOptions]
            ++ before ++ .getHonkCallData a b v f :: later) ∧
    (∀ w o, Event.generateProof w o ∈ (generateVK_run p c files).2 →
      ∀ flavor : Flavor, SelectsFlavor o flavor ↔ flavor = .starknet) ∧
    (∀ o, Event.getVerificationKey o ∈ (generateVK_run p c files).2 →
      ∀ flavor : Flavor, SelectsFlavor o flavor ↔ flavor = .starknet) := by
  rcases generateVK_run_trace p c files with hkind | ⟨w, vk, proof, htrace⟩
  · refine ⟨fun a b v f hev => ?_, fun w o hev => ?_, fun o hev => ?_⟩
    · rcases hkind _ hev with h | h | ⟨w, h⟩ | h <;> cases h
    · rcases hkind _ hev with h | h | ⟨w2, h⟩ | h <;> cases h
      exact selectsFlavor_generateProofOptions
    · rcases hkind _ hev with h | h | ⟨w2, h⟩ | h <;> cases h
      exact selectsFlavor_getVerificationKeyOptions
  · rw [htrace]
    refine ⟨fun a b v f hev => ?_, fun w2 o hev => ?_, fun o hev => ?_⟩
    · rcases List.mem_append.1 hev with hfour | hrest
      · simp at hfour
      · have hf := (generateVK_traced_events c vk proof files _ hrest).2.2 a b v f rfl
        obtain ⟨before, later, hsplit⟩ := List.append_of_mem hrest
        exact ⟨hf, flavor_code_iff f hf, w, before, later, by rw [hsplit, List.append_assoc]⟩
    · rcases List.mem_append.1 hev with hfour | hrest
      · simp only [List.mem_cons, List.mem_singleton, List.mem_nil_iff, or_false] at hfour
        rcases hfour with h | h | h | h <;> cases h
        exact selectsFlavor_generateProofOptions
      · exact absurd rfl ((generateVK_traced_events c vk proof files _ hrest).1 w2 o)
    · rcases List.mem_append.1 hev with hfour | hrest
      · simp only [List.mem_cons, List.mem_singleton, List.mem_nil_iff, or_false] at hfour
        rcases hfour with h | h | h | h <;> cases h
        exact selectsFlavor_getVerificationKeyOptions
      · exact absurd rfl ((generateVK_traced_events c vk proof files _ hrest).2.1 o)

/-- C15 at a run whose backend returns the proof
`{proof: [3], publicInputs: ["0x01"]}` and the verification key `[1, 2]`: the
generator is called with flavor 1, the code of STARKNET alone, after both
backend calls. -/
theorem C15_flavor_starknet_witness :
    Event.getHonkCallData (.u8 [3]) [0x01] (.u8 [1, 2]) 1
      ∈ (generateVK_run
          ⟨.ok (), fun _ => .ok (.obj [("witness", .u8 [7])]),
            fun _ _ => .ok (.obj [("proof", .u8 [3]),
              ("publicInputs", .arr [.str (units "0x01")])]),
            fun _ => .ok (.u8 [1, 2])⟩
          (⟨.ok (), fun _ _ _ _ => .ok [], fun _ => [], fun _ => none, .ok ()⟩ :
            Collaborators Int)
          ⟨none, none, none⟩).2 ∧
    ((1 : Int) = 1 ∧ ∀ flavor : Flavor, flavor.code = some 1 ↔ flavor = .starknet) := by
  have hmem : Event.getHonkCallData (.u8 [3]) [0x01] (.u8 [1, 2]) 1
      ∈ (generateVK_run
          ⟨.ok (), fun _ => .ok (.obj [("witness", .u8 [7])]),
            fun _ _ => .ok (.obj [("proof", .u8 [3]),
              ("publicInputs", .arr [.str (units "0x01")])]),
            fun _ => .ok (.u8 [1, 2])⟩
          (⟨.ok (), fun _ _ _ _ => .ok [], fun _ => [], fun _ => none, .ok ()⟩ :
            Collaborators Int)
          ⟨none, none, none⟩).2 := by
    have htrace : (generateVK_run
          ⟨.ok (), fun _ => .ok (.obj [("witness", .u8 [7])]),
            fun _ _ => .ok (.obj [("proof", .u8 [3]),
              ("publicInputs", .arr [.str (units "0x01")])]),
            fun _ => .ok (.u8 [1, 2])⟩
          (⟨.ok (), fun _ _ _ _ => .ok [], fun _ => [], fun _ => none, .ok ()⟩ :
            Collaborators Int)
          ⟨none, none, none⟩).2
        = [.init, .execute circuitInputs, .generateProof (.u8 [7]) generateProofOptions,
            .getVerificationKey getVerificationKeyOptions, .writeFile .vk (.u8 [1, 2]),
            .writeFile .proof (.u8 [3]), .init,
            .getHonkCallData (.u8 [3]) [0x01] (.u8 [1, 2]) 1,
            .writeFile .calldata (.str (units "[]")), .destroy] := rfl
    rw [htrace]
    simp
  obtain ⟨h1, h2, _⟩ := (C15_flavor_starknet _ _ _).1 _ _ _ _ hmem
  exact ⟨hmem, h1, h2⟩

theorem writeFile_str_error (w : TargetFile → Option JSError) (files : Files) (path : TargetFile)
    (s : JSString) (e : JSError) (h : (writeFile w files path (.str s)).2 = .error e) :
    (writeFile w files path (.str s)).1 = files := by
  unfold writeFile at h ⊢
  cases hw : w path with
  | none => simp [hw] at h
  | some e2 => simp [hw]

/-- A failing `try` block leaves the three files as they were. -/
theorem generateVK_try_error {Elem : Type} (c : Collaborators Elem) (vk proof : JSValue)
    (files : Files) (e : JSError) (h : (generateVK_try c vk proof files).2 = .error e) :
    (generateVK_try c vk proof files).1 = files := by
  unfold generateVK_try generateVK_try_traced at h ⊢
  cases h1 : c.garagaInit with
  | error e1 => simp [h1]
  | ok u =>
    cases h2 : getHonkCallDataArgs vk proof with
    | error e2 => simp [h1, h2]
    | ok args =>
      obtain ⟨a1, a2, a3, a4⟩ := args
      cases h3 : c.getHonkCallData a1 a2 a3 a4 with
      | error e3 => simp [h1, h2, h3]
      | ok callData =>
        simp only [h1, h2, h3] at h ⊢
        exact writeFile_str_error _ _ _ _ e h

theorem generateVK_try_traced_head {Elem : Type} (c : Collaborators Elem) (vk proof : JSValue)
    (files : Files) :
    ∃ tryEvents, (generateVK_try_traced c vk proof files).2 = .init :: tryEvents := by
  unfold generateVK_try_traced
  cases c.garagaInit with
  | error e1 => exact ⟨[], rfl⟩
  | ok u =>
    dsimp only
    cases getHonkCallDataArgs vk proof with
    | error e2 => exact ⟨[], rfl⟩
    | ok args =>
      obtain ⟨a1, a2, a3, a4⟩ := args
      dsimp only
      cases c.getHonkCallData a1 a2 a3 a4 with
      | error e3 => exact ⟨_, rfl⟩
      | ok callData => exact ⟨_, rfl⟩

theorem generateVK_traced_after_extract {Elem : Type} (c : Collaborators Elem)
    (vk proof : JSValue) (files : Files) (kb pb : ByteBuffer)
    (hext : generateVK_extract vk proof = .ok (.u8 kb, .u8 pb))
    (hwv : c.writeFailure .vk = none) (hwp : c.writeFailure .proof = none) :
    generateVK_traced c vk proof files
      = (((generateVK_try_traced c vk proof
            ⟨some (.bytes kb), some (.bytes pb), files.calldata⟩).1.1, c.destroy),
          [.writeFile .vk (.u8 kb), .writeFile .proof (.u8 pb)]
            ++ (generateVK_try_traced c vk proof
                ⟨some (.bytes kb), some (.bytes pb), files.calldata⟩).2
            ++ (match (generateVK_try_traced c vk proof
                  ⟨some (.bytes kb), some (.bytes pb), files.calldata⟩).1.2 with
                | .error e => [.logError e]
                | .ok _ => [])
            ++ [.destroy]) := by
  simp [generateVK_traced, hext, writeFile, hwv, hwp, Files.replace]

theorem generateVK_after_extract {Elem : Type} (c : Collaborators Elem) (vk proof : JSValue)
    (files : Files) (kb pb : ByteBuffer)
    (hext : generateVK_extract vk proof = .ok (.u8 kb, .u8 pb))
    (hwv : c.writeFailure .vk = none) (hwp : c.writeFailure .proof = none) :
    generateVK c vk proof files
      = ((generateVK_try c vk proof
          ⟨some (.bytes kb), some (.bytes pb), files.calldata⟩).1, c.destroy) := by
  rw [generateVK, generateVK_traced_after_extract c vk proof files kb pb hext hwv hwp]
  rfl

/-- The file state the `try` block ends with is the one its events lead to. -/
theorem generateVK_try_traced_replay {Elem : Type} (c : Collaborators Elem) (vk proof : JSValue)
    (files : Files) :
    (generateVK_try_traced c vk proof files).1.1
      = (generateVK_try_traced c vk proof files).2.foldl (applyEvent c.writeFailure) files := by
  unfold generateVK_try_traced
  cases c.garagaInit with
  | error e1 => rfl
  | ok u =>
    dsimp only
    cases getHonkCallDataArgs vk proof with
    | error e2 => rfl
    | ok args =>
      obtain ⟨a1, a2, a3, a4⟩ := args
      dsimp only
      cases c.getHonkCallData a1 a2 a3 a4 with
      | error e3 => rfl
      | ok callData => rfl

/-- The file state the run ends with is the one its events lead to, taken in
their order from the initial state. -/
theorem generateVK_traced_replay {Elem : Type} (c : Collaborators Elem) (vk proof : JSValue)
    (files : Files) :
    (generateVK_traced c vk proof files).1.1
      = (generateVK_traced c vk proof files).2.foldl (applyEvent c.writeFailure) files := by
  unfold generateVK_traced
  cases h1 : generateVK_extract vk proof with
  | error e1 => rfl
  | ok ext =>
    obtain ⟨vkBytes, proofBytes⟩ := ext
    dsimp only
    cases h2 : writeFile c.writeFailure files .vk vkBytes with
    | mk f2 r2 =>
      have hf2 : applyEvent c.writeFailure files (.writeFile .vk vkBytes) = f2 := by
        simp [applyEvent, h2]
      cases r2 with
      | error e2 => simp [hf2]
      | ok u2 =>
        dsimp only
        cases h3 : writeFile c.writeFailure f2 .proof proofBytes with
        | mk f3 r3 =>
          have hf3 : applyEvent c.writeFailure f2 (.writeFile .proof proofBytes) = f3 := by
            simp [applyEvent, h3]
          cases r3 with
          | error e3 => simp [hf2, hf3]
          | ok u3 =>
            dsimp only
            rw [List.foldl_append, List.foldl_append, List.foldl_append]
            simp only [List.foldl_cons, List.foldl_nil, hf2, hf3]
            rw [← generateVK_try_traced_replay c vk proof f3]
            cases (generateVK_try_traced c vk proof f3).1.2 with
            | error e4 => rfl
            | ok u4 => rfl

/-- C14: in every run in which extraction succeeds (with the buffers `kb` and
`pb`), the two binary writes succeed and the `try` block fails, be it in
`init`, in the flattening of the public inputs, in the calldata generator or
in the calldata write, the failure is caught. The events of the run are, in
this order: the write of `kb` to `target/vk`, the write of `pb` to
`target/proof`, then the events of the `try` block, which start with
`init()` and hold no write of `target/vk` or `target/proof`, then the error
line of the `catch` block, then `backend.destroy()`; the final file state is
the one these events lead to from the initial state. The `try` block starts
from the file state in which `target/vk` holds `kb` and `target/proof` holds
`pb` and leaves it as it is; the run ends with that file state,
`target/calldata.json` being as before the run, and with the outcome of
`backend.destroy()`, which is a normal end when `destroy` succeeds. -/
theorem C14_try_failure_caught {Elem : Type} (c : Collaborators Elem) (vk proof : JSValue)
    (files : Files) (kb pb : ByteBuffer) (e : JSError)
    (hext : generateVK_extract vk proof = .ok (.u8 kb, .u8 pb))
    (hwv : c.writeFailure .vk = none) (hwp : c.writeFailure .proof = none)
    (hfail : (generateVK_try c vk proof
      ⟨some (.bytes kb), some (.bytes pb), files.calldata⟩).2 = .error e) :
    generateVK_try c vk proof ⟨some (.bytes kb), some (.bytes pb), files.calldata⟩
      = (⟨some (.bytes kb), some (.bytes pb), files.calldata⟩, .error e) ∧
    generateVK c vk proof files
      = (⟨some (.bytes kb), some (.bytes pb), files.calldata⟩, c.destroy) ∧
    (c.destroy = .ok () →
      generateVK c vk proof files
        = (⟨some (.bytes kb), some (.bytes pb), files.calldata⟩, .ok ())) ∧
    ∃ tryEvents : List Event,
      generateVK_try_traced c vk proof ⟨some (.bytes kb), some (.bytes pb), files.calldata⟩
        = ((⟨some (.bytes kb), some (.bytes pb), files.calldata⟩, .error e),
            .init :: tryEvents) ∧
      generateVK_traced c vk proof files
        = ((⟨some (.bytes kb), some (.bytes pb), files.calldata⟩, c.destroy),
            [.writeFile .vk (.u8 kb), .writeFile .proof (.u8 pb)] ++ (.init :: tryEvents)
              ++ [.logError e, .destroy]) ∧
      (∀ ev ∈ tryEvents, ∀ d, ev ≠ .writeFile .vk d ∧ ev ≠ .writeFile .proof d) ∧
      (generateVK_traced c vk proof files).1.1
        = (generateVK_traced c vk proof files).2.foldl (applyEvent c.writeFailure) files := by
  have h1 := generateVK_try_error c vk proof _ e hfail
  have h2 := generateVK_after_extract c vk proof files kb pb hext hwv hwp
  rw [h1] at h2
  have htry : generateVK_try c vk proof ⟨some (.bytes kb), some (.bytes pb), files.calldata⟩
      = (⟨some (.bytes kb), some (.bytes pb), files.calldata⟩, .error e) := Prod.ext h1 hfail
  obtain ⟨tryEvents, hhead⟩ := generateVK_try_traced_head c vk proof
    ⟨some (.bytes kb), some (.bytes pb), files.calldata⟩
  have htraced : generateVK_try_traced c vk proof
      ⟨some (.bytes kb), some (.bytes pb), files.calldata⟩
      = ((⟨some (.bytes kb), some (.bytes pb), files.calldata⟩, .error e),
          .init :: tryEvents) := Prod.ext htry hhead
  refine ⟨htry, h2, fun hd => by rw [h2, hd], tryEvents, htraced, ?_, ?_,
    generateVK_traced_replay c vk proof files⟩
  · rw [generateVK_traced_after_extract c vk proof files kb pb hext hwv hwp, htraced]
    simp
  · intro ev hev d
    have hmem : ev ∈ (generateVK_try_traced c vk proof
        ⟨some (.bytes kb), some (.bytes pb), files.calldata⟩).2 := by
      rw [htraced]
      exact List.mem_cons_of_mem _ hev
    rcases generateVK_try_traced_events c vk proof _ ev hmem with rfl | ⟨a, b, v, rfl⟩ | ⟨d2, rfl⟩
    · exact ⟨fun h => (by cases h), fun h => (by cases h)⟩
    · exact ⟨fun h => (by cases h), fun h => (by cases h)⟩
    · exact ⟨fun h => (by cases h), fun h => (by cases h)⟩

/-- C14 at a run whose calldata generator throws: the key `[1, 2]` and the
proof `[3]` are on file at the end, the calldata file still holds its old
text, the run ends normally, and the two writes come before `init()` and the
call of the generator. -/
theorem C14_try_failure_caught_witness :
    generateVK
      (⟨.ok (), fun _ _ _ _ => .error (.error "unreachable"), fun _ => [], fun _ => none,
        .ok ()⟩ : Collaborators Int)
      (.u8 [1, 2]) (.obj [("proof", .u8 [3]), ("publicInputs", .arr [.str (units "0x01")])])
      ⟨none, some (.bytes [9]), some (.text (units "[]"))⟩
      = (⟨some (.bytes [1, 2]), some (.bytes [3]), some (.text (units "[]"))⟩, .ok ()) ∧
    (generateVK_traced
      (⟨.ok (), fun _ _ _ _ => .error (.error "unreachable"), fun _ => [], fun _ => none,
        .ok ()⟩ : Collaborators Int)
      (.u8 [1, 2]) (.obj [("proof", .u8 [3]), ("publicInputs", .arr [.str (units "0x01")])])
      ⟨none, some (.bytes [9]), some (.text (units "[]"))⟩).2
      = [.writeFile .vk (.u8 [1, 2]), .writeFile .proof (.u8 [3]), .init,
          .getHonkCallData (.u8 [3]) [0x01] (.u8 [1, 2]) 1, .logError (.error "unreachable"),
          .destroy] :=
  ⟨(C14_try_failure_caught
    (⟨.ok (), fun _ _ _ _ => .error (.error "unreachable"), fun _ => [], fun _ => none,
      .ok ()⟩ : Collaborators Int)
    (.u8 [1, 2]) (.obj [("proof", .u8 [3]), ("publicInputs", .arr [.str (units "0x01")])])
    ⟨none, some (.bytes [9]), some (.text (units "[]"))⟩ [1, 2] [3] (.error "unreachable")
    rfl rfl rfl rfl).2.2.1 rfl, rfl⟩

/-- C19: in every run in which the verification-key result or the proof
result matches neither shape, whatever the other one is, the run throws the
extraction error and the final state of `target/vk`, `target/proof` and
`target/calldata.json` is the initial one: nothing is written. -/
theorem C19_extraction_failure_atomic {Elem : Type} (c : Collaborators Elem) (vk proof : JSValue)
    (files : Files) (h : ¬ MatchesShape vk "data" ∨ ¬ MatchesShape proof "proof") :
    generateVK c vk proof files
      = (files, .error (.error "Could not extract binary data from VK or Proof objects.")) := by
  simp only [generateVK, generateVK_traced, generateVK_extract_error vk proof h]

/-- C19 at the malformed verification key `{}` next to a well-formed proof,
with collaborators that all succeed. -/
theorem C19_extraction_failure_atomic_witness :
    (¬ MatchesShape (.obj []) "data" ∨
      ¬ MatchesShape (.obj [("proof", .u8 [3]), ("publicInputs", .arr [])]) "proof") ∧
    generateVK
      (⟨.ok (), fun _ _ _ flavor => .ok [flavor], fun _ => [], fun _ => none, .ok ()⟩ :
        Collaborators Int)
      (.obj []) (.obj [("proof", .u8 [3]), ("publicInputs", .arr [])])
      ⟨none, some (.bytes [9]), some (.text (units "[]"))⟩
      = (⟨none, some (.bytes [9]), some (.text (units "[]"))⟩,
          .error (.error "Could not extract binary data from VK or Proof objects.")) := by
  have hvk : ¬ MatchesShape (.obj []) "data" := by
    rintro (⟨b, hb⟩ | ⟨props, b, hp, hl⟩)
    · cases hb
    · cases hp
      simp at hl
  exact ⟨Or.inl hvk, C19_extraction_failure_atomic _ _ _ _ (Or.inl hvk)⟩

/-! ## Further properties of `flattenFieldsAsArray`, `hexToUint8Array` and `flattenUint8Arrays` -/

theorem flatten_length_uniform (n : Nat) :
    ∀ L : List ByteBuffer, (∀ l ∈ L, l.length = n) → L.flatten.length = n * L.length
  | [], _ => by simp
  | l :: rest, h => by
    have ih := flatten_length_uniform n rest (fun x hx => h x (List.mem_cons_of_mem _ hx))
    have hl : l.length = n := h l (List.mem_cons_self _ _)
    simp only [List.flatten_cons, List.length_append, List.length_cons, ih, hl]
    ring

theorem flatten_chunk (n : Nat) :
    ∀ (L : List ByteBuffer), (∀ l ∈ L, l.length = n) → ∀ (i : Nat) (hi : i < L.length),
      (L.flatten.drop (n * i)).take n = L.get ⟨i, hi⟩
  | [], _, i, hi => by simp at hi
  | l :: rest, h, 0, _ => by
    have hl : l.length = n := h l (List.mem_cons_self _ _)
    simp only [Nat.mul_zero, List.drop_zero, List.flatten_cons]
    exact List.take_left' hl
  | l :: rest, h, i + 1, hi => by
    have hl : l.length = n := h l (List.mem_cons_self _ _)
    have hi2 : i < rest.length := by simpa using hi
    have ih := flatten_chunk n rest (fun x hx => h x (List.mem_cons_of_mem _ hx)) i hi2
    have hmul : n * (i + 1) = l.length + n * i := by rw [hl]; ring
    rw [List.flatten_cons, hmul, List.drop_append, ih]
    rfl

/-- C16: for every sequence of `n` field elements that each have exactly 64
hex digits after the optional prefix, `flattenFieldsAsArray` returns a buffer
of `32 * n` bytes whose bytes `32*i .. 32*i + 31` are the buffer
`hexToUint8Array` returns for element `i`. Without the equal width the
element boundaries are lost: the distinct sequences `["0x0102"]` and
`["0x01", "0x02"]` of valid field elements give the same buffer. -/
theorem C16_flattenFieldsAsArray_fixed_width (fs : List JSString)
    (h64 : ∀ f ∈ fs, (stripped f).length = 64 ∧ IsHexString (stripped f)) :
    (∃ out : ByteBuffer, flattenFieldsAsArray (.arr (fs.map .str)) = .ok out ∧
      out.length = 32 * fs.length ∧
      ∀ (i : Nat) (hi : i < fs.length),
        hexToUint8Array (.str (fs.get ⟨i, hi⟩)) = .ok ((out.drop (32 * i)).take 32)) ∧
    ([units "0x0102"] ≠ [units "0x01", units "0x02"] ∧
      (∀ f ∈ [units "0x0102", units "0x01", units "0x02"], IsHexString (stripped f)) ∧
      flattenFieldsAsArray (.arr [.str (units "0x0102")])
        = flattenFieldsAsArray (.arr [.str (units "0x01"), .str (units "0x02")])) := by
  have hlen : ∀ l ∈ fs.map hexToUint8ArrayStr, l.length = 32 := by
    intro l hl
    obtain ⟨f, hf, rfl⟩ := List.mem_map.1 hl
    rw [hexToUint8ArrayStr_length, (h64 f hf).1]
  refine ⟨⟨(fs.map hexToUint8ArrayStr).flatten, flattenFieldsAsArray_str fs, ?_, ?_⟩,
    by decide, by decide, by decide⟩
  · rw [flatten_length_uniform 32 _ hlen, List.length_map]
  · intro i hi
    have hi2 : i < (fs.map hexToUint8ArrayStr).length := by simpa using hi
    rw [flatten_chunk 32 _ hlen i hi2]
    simp [hexToUint8Array]

/-- C16 at three field elements of 64 hex digits, with a `0x` prefix, with no
prefix and with a `0X` prefix: the result has 96 bytes, and its bytes 0..31,
32..63 and 64..95 are the decodings of the first, of the second and of the
third element. -/
theorem C16_flattenFieldsAsArray_fixed_width_witness :
    (∀ f ∈ [units "0x000000000000000000000000000000000000000000000000000000000000abcd",
        units "1111111111111111111111111111111111111111111111111111111111111111",
        units "0Xffffffffffffffffffffffffffffffffffffffffffffffffffffffffffffff00"],
      (stripped f).length = 64 ∧ IsHexString (stripped f)) ∧
    (∃ out : ByteBuffer,
      flattenFieldsAsArray (.arr
        ([units "0x000000000000000000000000000000000000000000000000000000000000abcd",
          units "1111111111111111111111111111111111111111111111111111111111111111",
          units "0Xffffffffffffffffffffffffffffffffffffffffffffffffffffffffffffff00"].map .str))
        = .ok out ∧
      out.length = 32 * 3 ∧
      hexToUint8Array (.str (units "0x000000000000000000000000000000000000000000000000000000000000abcd"))
        = .ok ((out.drop (32 * 0)).take 32) ∧
      hexToUint8Array (.str (units "1111111111111111111111111111111111111111111111111111111111111111"))
        = .ok ((out.drop (32 * 1)).take 32) ∧
      hexToUint8Array (.str (units "0Xffffffffffffffffffffffffffffffffffffffffffffffffffffffffffffff00"))
        = .ok ((out.drop (32 * 2)).take 32)) ∧
    hexToUint8Array (.str (units "1111111111111111111111111111111111111111111111111111111111111111"))
      = .ok (List.replicate 32 0x11) ∧
    hexToUint8Array (.str (units "0Xffffffffffffffffffffffffffffffffffffffffffffffffffffffffffffff00"))
      = .ok (List.replicate 31 0xff ++ [0x00]) := by
  have hv : ∀ f ∈ [units "0x000000000000000000000000000000000000000000000000000000000000abcd",
      units "1111111111111111111111111111111111111111111111111111111111111111",
      units "0Xffffffffffffffffffffffffffffffffffffffffffffffffffffffffffffff00"],
      (stripped f).length = 64 ∧ IsHexString (stripped f) := by decide
  obtain ⟨⟨out, hout, hlen, hidx⟩, _⟩ := C16_flattenFieldsAsArray_fixed_width _ hv
  exact ⟨hv, ⟨out, hout, hlen, hidx 0 (by decide), hidx 1 (by decide), hidx 2 (by decide)⟩,
    by decide, by decide⟩

theorem hexDigitChar_spec (upper : Bool) (n : Nat) (hn : n < 16) :
    isHexDigit (hexDigitChar upper n) = true ∧ hexVal (hexDigitChar upper n) = n := by
  interval_cases n <;> cases upper <;> decide

theorem toHex_cons (upper : Bool) (b : Nat) (bs : ByteBuffer) :
    toHex upper (b :: bs)
      = hexDigitChar upper (b / 16) :: hexDigitChar upper (b % 16) :: toHex upper bs := by
  simp [toHex]

theorem toHex_spec (upper : Bool) :
    ∀ bs : ByteBuffer, IsBytes bs →
      IsHexString (toHex upper bs) ∧ (toHex upper bs).length % 2 = 0 ∧
        pairsMap byteOfSlice (toHex upper bs) = bs
  | [], _ => ⟨by intro c hc; simp [toHex] at hc, rfl, rfl⟩
  | b :: bs, hb => by
    have hb1 : b < 256 := hb b (List.mem_cons_self _ _)
    obtain ⟨ih1, ih2, ih3⟩ := toHex_spec upper bs (fun x hx => hb x (List.mem_cons_of_mem _ hx))
    obtain ⟨hh, hv⟩ := hexDigitChar_spec upper (b / 16) (by omega)
    obtain ⟨lh, lv⟩ := hexDigitChar_spec upper (b % 16) (by omega)
    rw [toHex_cons]
    refine ⟨?_, ?_, ?_⟩
    · intro c hc
      rcases List.mem_cons.1 hc with rfl | hc
      · exact hh
      · rcases List.mem_cons.1 hc with rfl | hc
        · exact lh
        · exact ih1 c hc
    · simp only [List.length_cons]; omega
    · rw [pairsMap, byteOfSlice_hex_hex _ _ hh lh, hv, lv, ih3]
      congr 1
      omega

theorem hexToUint8ArrayStr_toHex (upper : Bool) (bs : ByteBuffer) (hb : IsBytes bs) :
    hexToUint8ArrayStr (toHex upper bs) = bs ∧
    hexToUint8ArrayStr (units "0x" ++ toHex upper bs) = bs := by
  obtain ⟨h1, h2, h3⟩ := toHex_spec upper bs hb
  have hp : padded (toHex upper bs) = toHex upper bs := by
    have : ¬ ((toHex upper bs).length % 2 = 1) := by omega
    simp [padded, this]
  exact ⟨by rw [hexToUint8ArrayStr_digits _ h1, hp, h3], by rw [hexToUint8ArrayStr_0x, hp, h3]⟩

/-- C17: for every byte sequence `b`, `hexToUint8Array` of its rendering with
two hex digits per byte, in lower or in upper case, with or without the `0x`
prefix, is `b`. Hence every byte sequence is the result of some call, and
leading zero bytes are kept: `hexToUint8Array("0x0001")` is `[0x00, 0x01]`,
of length 2. -/
theorem C17_hexToUint8Array_toHex_roundtrip (upper : Bool) (b : ByteBuffer) (hb : IsBytes b) :
    hexToUint8Array (.str (toHex upper b)) = .ok b ∧
    hexToUint8Array (.str (units "0x" ++ toHex upper b)) = .ok b ∧
    (∃ h : JSString, hexToUint8Array (.str h) = .ok b) ∧
    hexToUint8Array (.str (units "0x0001")) = .ok [0x00, 0x01] := by
  obtain ⟨h1, h2⟩ := hexToUint8ArrayStr_toHex upper b hb
  refine ⟨?_, ?_, ⟨toHex upper b, ?_⟩, by decide⟩
  · simp only [hexToUint8Array, h1]
  · simp only [hexToUint8Array, h2]
  · simp only [hexToUint8Array, h1]

/-- C17 at the bytes `[0x00, 0x01, 0xab, 0xff]` in upper case, rendered as
`"0001ABFF"`. -/
theorem C17_hexToUint8Array_toHex_roundtrip_witness :
    IsBytes [0x00, 0x01, 0xab, 0xff] ∧
    toHex true [0x00, 0x01, 0xab, 0xff] = units "0001ABFF" ∧
    hexToUint8Array (.str (toHex true [0x00, 0x01, 0xab, 0xff])) = .ok [0x00, 0x01, 0xab, 0xff] :=
  ⟨by decide, by decide,
    (C17_hexToUint8Array_toHex_roundtrip true [0x00, 0x01, 0xab, 0xff] (by decide)).1⟩

theorem sum_take_length_le (bs : List ByteBuffer) (i : Nat) :
    ((bs.take i).map List.length).sum ≤ (bs.map List.length).sum := by
  have h := List.sum_take_add_sum_drop (bs.map List.length) i
  rw [← List.map_take] at h
  omega

theorem sum_take_succ_length (bs : List ByteBuffer) (i : Nat) (hi : i < bs.length) :
    ((bs.take (i + 1)).map List.length).sum
      = ((bs.take i).map List.length).sum + (bs.get ⟨i, hi⟩).length := by
  rw [List.take_succ, List.getElem?_eq_getElem hi, Option.toList_some, List.map_append,
    List.sum_append]
  simp only [List.map_cons, List.map_nil, List.sum_cons, List.sum_nil, Nat.add_zero,
    List.get_eq_getElem]

/-- C18: in `flattenUint8Arrays`, with `totalLength` the sum the code computes,
the loop reaches every buffer `i` in a state whose `offset` is the sum of the
lengths of the buffers before it and whose `result` still has `totalLength`
elements; `offset + len(bi)` is at most `totalLength`, so `result.set` does
not take its `RangeError` branch; the whole loop ends with
`offset = totalLength`, and the call returns a buffer, never an error. -/
theorem C18_flattenUint8Arrays_in_bounds (bs : List ByteBuffer) :
    (∀ (i : Nat) (hi : i < bs.length),
      ∃ result : ByteBuffer,
        (bs.take i).foldlM flattenStep
            (List.replicate (bs.foldl (fun acc val => acc + val.length) 0) 0, 0)
          = .ok (result, ((bs.take i).map List.length).sum) ∧
        result.length = bs.foldl (fun acc val => acc + val.length) 0 ∧
        ((bs.take i).map List.length).sum + (bs.get ⟨i, hi⟩).length
          ≤ bs.foldl (fun acc val => acc + val.length) 0 ∧
        ∃ result2 : ByteBuffer,
          typedArraySet result (bs.get ⟨i, hi⟩) ((bs.take i).map List.length).sum
            = .ok result2) ∧
    (∃ result : ByteBuffer,
      bs.foldlM flattenStep (List.replicate (bs.foldl (fun acc val => acc + val.length) 0) 0, 0)
        = .ok (result, bs.foldl (fun acc val => acc + val.length) 0)) ∧
    (∀ e, flattenUint8Arrays bs ≠ .error e) := by
  have htot : bs.foldl (fun acc val => acc + val.length) 0 = (bs.map List.length).sum := by
    rw [foldl_add_length, Nat.zero_add]
  rw [htot]
  refine ⟨?_, ?_, ?_⟩
  · intro i hi
    have hle := sum_take_length_le bs i
    have hle2 := sum_take_length_le bs (i + 1)
    rw [sum_take_succ_length bs i hi] at hle2
    have h := foldlM_flattenStep (bs.take i) [] (List.replicate (bs.map List.length).sum 0)
      (by simpa using hle)
    simp only [List.nil_append, List.length_nil, Nat.zero_add] at h
    have hlen : ((bs.take i).flatten
        ++ List.drop ((bs.take i).map List.length).sum
            (List.replicate (bs.map List.length).sum 0)).length
          = (bs.map List.length).sum := by
      rw [List.length_append, List.length_drop, List.length_replicate, List.length_flatten]
      omega
    refine ⟨_, h, hlen, hle2, ?_⟩
    unfold typedArraySet
    rw [if_neg (by rw [hlen]; omega)]
    exact ⟨_, rfl⟩
  · have h := foldlM_flattenStep bs [] (List.replicate (bs.map List.length).sum 0) (by simp)
    simp only [List.nil_append, List.length_nil, Nat.zero_add] at h
    exact ⟨_, h⟩
  · intro e he
    rw [flattenUint8Arrays_eq] at he
    cases he

/-- C18 at `[[1, 2], [3], [4, 5, 6]]`: the third buffer is reached with
`offset = 3` and `result = [1, 2, 3, 0, 0, 0]`, and `3 + 3` is at most 6. -/
theorem C18_flattenUint8Arrays_in_bounds_witness :
    ∃ result : ByteBuffer,
      ([[1, 2], [3]] : List ByteBuffer).foldlM flattenStep (List.replicate 6 0, 0)
        = .ok (result, 3) ∧
      result.length = 6 ∧ 3 + 3 ≤ 6 ∧
      ∃ result2 : ByteBuffer, typedArraySet result [4, 5, 6] 3 = .ok result2 :=
  (C18_flattenUint8Arrays_in_bounds [[1, 2], [3], [4, 5, 6]]).1 2 (by decide)

/-! ## Lemmas on the JSON text of `writeCalldataToFile` -/

theorem hexChar_value (n : Nat) (hn : n < 16) : hexDigitValue (hexChar n) = some n := by
  interval_cases n <;> decide

theorem parseHex4_unicodeEscape (c : Nat) (hc : c < 65536) :
    parseHex4 (hexChar (c / 4096 % 16)) (hexChar (c / 256 % 16)) (hexChar (c / 16 % 16))
      (hexChar (c % 16)) = some c := by
  unfold parseHex4
  rw [hexChar_value _ (Nat.mod_lt _ (by decide)), hexChar_value _ (Nat.mod_lt _ (by decide)),
    hexChar_value _ (Nat.mod_lt _ (by decide)), hexChar_value _ (Nat.mod_lt _ (by decide))]
  simp only [Option.some.injEq]
  omega

theorem parseJSONString_literal (c : Nat) (t s left : JSString) (h34 : c ≠ 34) (h92 : c ≠ 92)
    (h32 : ¬ c < 32) (h : parseJSONString t = some (s, left)) :
    parseJSONString (c :: t) = some (c :: s, left) := by
  rw [parseJSONString.eq_def]
  simp [h34, h92, h32, h]

theorem parseJSONString_unicodeEscape (c : Nat) (t s left : JSString) (hc : c < 65536)
    (h : parseJSONString t = some (s, left)) :
    parseJSONString (unicodeEscape c ++ t) = some (c :: s, left) := by
  simp only [unicodeEscape, List.cons_append, List.nil_append]
  rw [parseJSONString.eq_def]
  simp [parseHex4_unicodeEscape c hc, h]

theorem parseJSONString_simpleEscape (e v : Nat) (t s left : JSString) (he : e ≠ 117)
    (hv : parseSimpleEscape e = some v) (h : parseJSONString t = some (s, left)) :
    parseJSONString (92 :: e :: t) = some (v :: s, left) := by
  rw [parseJSONString.eq_def]
  simp [he, hv, h]

theorem surrogate_bounds (c : Nat) (h : isLeadingSurrogate c = true ∨ isTrailingSurrogate c = true) :
    55296 ≤ c ∧ c < 65536 := by
  simp only [isLeadingSurrogate, isTrailingSurrogate, Bool.and_eq_true, decide_eq_true_eq] at h
  omega

/-- Reading the rendering of one code unit gives the code unit back. -/
theorem parseJSONString_quoteJSONCodeUnit (c : Nat) (t s left : JSString)
    (h : parseJSONString t = some (s, left)) :
    parseJSONString (quoteJSONCodeUnit c ++ t) = some (c :: s, left) := by
  unfold quoteJSONCodeUnit
  split_ifs with h8 h9 h10 h12 h13 h34 h92 hesc
  · subst h8; exact parseJSONString_simpleEscape 98 8 t s left (by decide) (by decide) h
  · subst h9; exact parseJSONString_simpleEscape 116 9 t s left (by decide) (by decide) h
  · subst h10; exact parseJSONString_simpleEscape 110 10 t s left (by decide) (by decide) h
  · subst h12; exact parseJSONString_simpleEscape 102 12 t s left (by decide) (by decide) h
  · subst h13; exact parseJSONString_simpleEscape 114 13 t s left (by decide) (by decide) h
  · subst h34; exact parseJSONString_simpleEscape 34 34 t s left (by decide) (by decide) h
  · subst h92; exact parseJSONString_simpleEscape 92 92 t s left (by decide) (by decide) h
  · have hc : c < 65536 := by
      rcases hesc with h1 | h2 | h3
      · omega
      · exact (surrogate_bounds c (Or.inl h2)).2
      · exact (surrogate_bounds c (Or.inr h3)).2
    exact parseJSONString_unicodeEscape c t s left hc h
  · have h32 : ¬ c < 32 := fun hlt => hesc (Or.inl hlt)
    exact parseJSONString_literal c t s left h34 h92 h32 h

/-- Reading the body `QuoteJSONString` writes, up to the closing quote, gives
the string back and leaves what follows the quote. -/
theorem parseJSONString_quoteJSONBody :
    ∀ (s r : JSString), parseJSONString (quoteJSONBody s ++ 34 :: r) = some (s, r)
  | [], r => by
    rw [quoteJSONBody, parseJSONString.eq_def]
    simp
  | [c], r => by
    have h0 : parseJSONString (34 :: r) = some ([], r) := by
      rw [parseJSONString.eq_def]
      simp
    rw [quoteJSONBody]
    exact parseJSONString_quoteJSONCodeUnit c _ [] r h0
  | c :: d :: rest, r => by
    rw [quoteJSONBody]
    split_ifs with hpair
    · have hc := surrogate_bounds c (Or.inl hpair.1)
      have hd := surrogate_bounds d (Or.inr hpair.2)
      have ih := parseJSONString_quoteJSONBody rest r
      simp only [List.cons_append]
      exact parseJSONString_literal c _ _ r (by omega) (by omega) (by omega)
        (parseJSONString_literal d _ _ r (by omega) (by omega) (by omega) ih)
    · have ih := parseJSONString_quoteJSONBody (d :: rest) r
      rw [List.append_assoc]
      exact parseJSONString_quoteJSONCodeUnit c _ _ r ih

theorem units_newline_indent : units "\n  " = [10, 32, 32] := by decide
theorem units_comma : units "," = [44] := by decide
theorem units_open : units "[" = [91] := by decide
theorem units_close : units "\n]" = [10, 93] := by decide
theorem units_empty_array : units "[]" = [91, 93] := by decide

theorem skipJSONWhiteSpace_indent (t : JSString) :
    skipJSONWhiteSpace (10 :: 32 :: 32 :: 34 :: t) = 34 :: t := by
  simp [skipJSONWhiteSpace, List.dropWhile, isJSONWhiteSpace]

theorem stringifyElements_cons_cons (s t : JSString) (rest : List JSString) (tail : JSString) :
    stringifyElements (s :: t :: rest) ++ tail
      = 10 :: 32 :: 32 :: 34 :: (quoteJSONBody s
          ++ 34 :: 44 :: (stringifyElements (t :: rest) ++ tail)) := by
  simp [stringifyElements, quoteJSONString, units_newline_indent, units_comma]

theorem stringifyElements_singleton (s : JSString) (tail : JSString) :
    stringifyElements [s] ++ tail = 10 :: 32 :: 32 :: 34 :: (quoteJSONBody s ++ 34 :: tail) := by
  simp [stringifyElements, quoteJSONString, units_newline_indent]

theorem stringifyElements_head (s : JSString) (rest : List JSString) (tail : JSString) :
    ∃ t, stringifyElements (s :: rest) ++ tail = 10 :: 32 :: 32 :: 34 :: t := by
  cases rest with
  | nil => exact ⟨_, stringifyElements_singleton s tail⟩
  | cons t rest => exact ⟨_, stringifyElements_cons_cons s t rest tail⟩

/-- Reading the elements `JSON.stringify` lays out, followed by the closing
line, gives the strings back when the fuel covers their number. -/
theorem parseJSONElements_stringifyElements :
    ∀ (rest : List JSString) (s : JSString) (fuel : Nat), rest.length < fuel →
      parseJSONElements fuel (skipJSONWhiteSpace (stringifyElements (s :: rest) ++ [10, 93]))
        = some (s :: rest)
  | [], s, fuel, hf => by
    obtain ⟨n, rfl⟩ : ∃ n, fuel = n + 1 := ⟨fuel - 1, by omega⟩
    rw [stringifyElements_singleton, skipJSONWhiteSpace_indent, parseJSONElements]
    simp [parseJSONString_quoteJSONBody, skipJSONWhiteSpace, List.dropWhile, isJSONWhiteSpace]
  | t :: rest, s, fuel, hf => by
    obtain ⟨n, rfl⟩ : ∃ n, fuel = n + 1 := ⟨fuel - 1, by omega⟩
    have hn : rest.length < n := by simp only [List.length_cons] at hf; omega
    have ih := parseJSONElements_stringifyElements rest t n hn
    rw [stringifyElements_cons_cons, skipJSONWhiteSpace_indent, parseJSONElements]
    simp only [parseJSONString_quoteJSONBody]
    have hskip : skipJSONWhiteSpace (44 :: (stringifyElements (t :: rest) ++ [10, 93]))
        = 44 :: (stringifyElements (t :: rest) ++ [10, 93]) := by
      simp [skipJSONWhiteSpace, List.dropWhile, isJSONWhiteSpace]
    simp only [hskip, ih]

theorem stringifyElements_length (strings : List JSString) :
    strings.length ≤ (stringifyElements strings).length := by
  induction strings with
  | nil => simp
  | cons s rest ih =>
    cases rest with
    | nil => simp [stringifyElements, units_newline_indent]
    | cons t rest =>
      have h := stringifyElements_cons_cons s t rest []
      simp only [List.append_nil] at h
      rw [h]
      simp only [List.length_cons, List.length_append] at ih ⊢
      omega

/-- Reading the text `JSON.stringify(strings, null, 2)` writes gives the
array of strings back. -/
theorem jsonParseStringArray_jsonStringify (strings : List JSString) :
    jsonParseStringArray (jsonStringify strings) = some strings := by
  cases strings with
  | nil => decide
  | cons s rest =>
    have hlen := stringifyElements_length (s :: rest)
    obtain ⟨t, ht⟩ := stringifyElements_head s rest [10, 93]
    have hfuel : rest.length < (91 :: (stringifyElements (s :: rest) ++ [10, 93])).length := by
      simp only [List.length_cons, List.length_append] at hlen ⊢
      omega
    have hparse := parseJSONElements_stringifyElements rest s _ hfuel
    have htext : jsonStringify (s :: rest) = 91 :: (stringifyElements (s :: rest) ++ [10, 93]) := by
      simp [jsonStringify, units_open, units_close]
    rw [htext]
    unfold jsonParseStringArray
    have h1 : skipJSONWhiteSpace (91 :: (stringifyElements (s :: rest) ++ [10, 93]))
        = 91 :: (stringifyElements (s :: rest) ++ [10, 93]) := by
      simp [skipJSONWhiteSpace, List.dropWhile, isJSONWhiteSpace]
    rw [h1]
    simp only []
    rw [ht, skipJSONWhiteSpace_indent] at hparse ⊢
    simp only []
    exact hparse

/-- C12: for every sequence of calldata elements, when the write does not
fail, `writeCalldataToFile` replaces the file by a text whose reading as JSON
is exactly the array of the elements' own string forms: as many entries as
elements, in the same order, entry `i` being `e_i.toString()`. -/
theorem C12_writeCalldataToFile_roundtrip {Elem : Type} (c : Collaborators Elem) (files : Files)
    (calldata : List Elem) (filePath : TargetFile) (hw : c.writeFailure filePath = none) :
    ∃ text : JSString,
      writeCalldataToFile c files calldata filePath
        = (files.replace filePath (.text text), .ok ()) ∧
      (files.replace filePath (.text text)).read filePath = some (.text text) ∧
      jsonParseStringArray text = some (calldata.map c.elemToString) ∧
      ∃ parsed : List JSString, jsonParseStringArray text = some parsed ∧
        parsed.length = calldata.length ∧
        ∀ (i : Nat) (hi : i < calldata.length),
          parsed[i]? = some (c.elemToString (calldata.get ⟨i, hi⟩)) := by
  refine ⟨jsonStringify (calldata.map c.elemToString), ?_, ?_,
    jsonParseStringArray_jsonStringify _, calldata.map c.elemToString,
    jsonParseStringArray_jsonStringify _, List.length_map _ _, ?_⟩
  · simp [writeCalldataToFile, writeFile, hw]
  · cases filePath <;> rfl
  · intro i hi
    simp [List.getElem?_eq_getElem hi]

/-- C12 at the elements 12 and 345 with their decimal string forms: the file
holds a two-line array and reading it gives `["12", "345"]`. -/
theorem C12_writeCalldataToFile_roundtrip_witness :
    ∃ text : JSString,
      writeCalldataToFile
          (⟨.ok (), fun _ _ _ _ => .ok [], fun n => units (Nat.repr n), fun _ => none, .ok ()⟩ :
            Collaborators Nat)
          ⟨none, none, some (.text (units "[]"))⟩ [12, 345] .calldata
        = (⟨none, none, some (.text text)⟩, .ok ()) ∧
      text = units "[\n  \"12\",\n  \"345\"\n]" ∧
      jsonParseStringArray text = some [units "12", units "345"] := by
  obtain ⟨text, hwrite, _, hparse, _⟩ := C12_writeCalldataToFile_roundtrip
    (⟨.ok (), fun _ _ _ _ => .ok [], fun n => units (Nat.repr n), fun _ => none, .ok ()⟩ :
      Collaborators Nat)
    ⟨none, none, some (.text (units "[]"))⟩ [12, 345] .calldata rfl
  have htext : text = units "[\n  \"12\",\n  \"345\"\n]" := by
    have h2 : writeCalldataToFile
        (⟨.ok (), fun _ _ _ _ => .ok [], fun n => units (Nat.repr n), fun _ => none, .ok ()⟩ :
          Collaborators Nat)
        ⟨none, none, some (.text (units "[]"))⟩ [12, 345] .calldata
        = (⟨none, none, some (.text (units "[\n  \"12\",\n  \"345\"\n]"))⟩, .ok ()) := by
      decide
    rw [h2] at hwrite
    simp only [Files.replace, Prod.mk.injEq, Files.mk.injEq, Option.some.injEq,
      FileContent.text.injEq, true_and, and_true] at hwrite
    exact hwrite.symm
  subst htext
  exact ⟨_, hwrite, rfl, by decide⟩

end ZKVerifier
